import Mathlib

/-!
Shallow embedding of the `httpform` request-binding library (the richer of the
two revisions in the repository) and proofs about it.

Modelling conventions:
  * Go strings are Lean `String`s; byte slices are carried as `String`s of their
    bytes.  URL percent-decoding, the URL type and the standard-library form /
    multipart / JSON parsers are external collaborators of the library and are
    passed in as explicit function parameters (`Collab`).
  * Machine integers: signed kinds are `Int` with explicit range checks against
    2 ^ (bits - 1); unsigned kinds are `Nat` checked against 2 ^ bits, matching
    `strconv.ParseInt` / `strconv.ParseUint` with base 10.  Floating-point
    kinds carry exact rationals: the plain decimal forms are represented
    exactly, while IEEE rounding to the bit width, exponent forms and the
    Inf/NaN specials are not modelled (no claim exercises them).
  * Go panics are modelled as the `DError.fatal` (or plain `Except.error` for
    the encoders) error channel, request errors as `DError.req` carrying the
    `Error` triple from error.go.
  * Go's `map[string]...` is modelled as an association list where assignment
    replaces an existing key in place; the library's observable behaviour does
    not depend on Go's randomised map iteration order for the claims below.
-/

set_option autoImplicit false

namespace Httpform

/-! ### Decimal digits (model of strconv's base-10 formatting and scanning) -/

/-- Character for a decimal digit value. -/
def digitChar (d : Nat) : Char := Char.ofNat (48 + d)

/-- Numeric value of a decimal digit character, if it is one. -/
def charDigit? (c : Char) : Option Nat :=
  if 48 ≤ c.toNat ∧ c.toNat ≤ 57 then some (c.toNat - 48) else none

/-- Big-endian decimal digits of `n` (empty for 0); fuel-driven so that the
kernel can evaluate it.  `natReprAux n n` is the digit list of `n`. -/
def natReprAux : Nat → Nat → List Char
  | 0, _ => []
  | fuel + 1, n => if n = 0 then [] else natReprAux fuel (n / 10) ++ [digitChar (n % 10)]

/-- Decimal representation of a natural number, as produced by
`strconv.FormatUint(n, 10)`. -/
def natRepr (n : Nat) : String := if n = 0 then "0" else String.mk (natReprAux n n)

/-- Accumulating decimal scanner: fails on the first non-digit character. -/
def parseNatDigitsAux : Nat → List Char → Option Nat
  | acc, [] => some acc
  | acc, c :: rest =>
    match charDigit? c with
    | some d => parseNatDigitsAux (acc * 10 + d) rest
    | none => none

/-- Scan a non-empty all-digit character list as a natural number. -/
def parseNatDigits : List Char → Option Nat
  | [] => none
  | l => parseNatDigitsAux 0 l

/-- Model of `strconv.ParseUint(s, 10, bits)`: digits only (no sign), range
checked against `2 ^ bits`. -/
def parseUintGo (s : String) (bits : Nat) : Except String Nat :=
  match parseNatDigits s.toList with
  | none => .error ("strconv.ParseUint: parsing " ++ s ++ ": invalid syntax")
  | some n =>
    if n < 2 ^ bits then .ok n
    else .error ("strconv.ParseUint: parsing " ++ s ++ ": value out of range")

/-- Strip an optional leading sign, reporting whether it was a minus. -/
def signSplit : List Char → Bool × List Char
  | '-' :: rest => (true, rest)
  | '+' :: rest => (false, rest)
  | l => (false, l)

/-- Model of `strconv.ParseInt(s, 10, bits)`: optional single sign, digits,
range checked against the signed interval. -/
def parseIntGo (s : String) (bits : Nat) : Except String Int :=
  let signDigits : Bool × List Char := signSplit s.toList
  match parseNatDigits signDigits.2 with
  | none => .error ("strconv.ParseInt: parsing " ++ s ++ ": invalid syntax")
  | some n =>
    let v : Int := if signDigits.1 then -(n : Int) else (n : Int)
    if -(2 ^ (bits - 1) : Int) ≤ v ∧ v < 2 ^ (bits - 1) then .ok v
    else .error ("strconv.ParseInt: parsing " ++ s ++ ": value out of range")

/-- Decimal representation of an `Int`, as produced by
`strconv.FormatInt(i, 10)`. -/
def formatIntGo (i : Int) : String :=
  if i < 0 then "-" ++ natRepr i.natAbs else natRepr i.natAbs

/-! ### util.go -/

/-- Model of `fmt`'s `%q` verb restricted to the backslash and double-quote
escapes (the strings the library quotes here are plain ASCII form values). -/
def goQuote (s : String) : String :=
  let esc : Char → String := fun c =>
    if c = '\\' then "\\\\" else if c = '"' then "\\\"" else String.mk [c]
  "\"" ++ String.join (s.toList.map esc) ++ "\""

/-- The truthy literals of `ParseBool` (util.go, the switch's first case). -/
def trueStrings : List String :=
  ["1", "t", "T", "y", "Y", "true", "TRUE", "True", "on", "ON", "On", "yes", "YES", "Yes"]

/-- The falsy literals of `ParseBool` (util.go, the switch's second case). -/
def falseStrings : List String :=
  ["0", "f", "F", "n", "N", "false", "FALSE", "False", "off", "OFF", "Off", "no", "NO", "No"]

/-- ParseBool is similar to strconv.ParseBool, but recognizes on/off values
that browsers send for checkboxes, and yes/no (util.go). -/
def ParseBool (str : String) : Except String Bool :=
  if str ∈ trueStrings then .ok true
  else if str ∈ falseStrings then .ok false
  else .error ("invalid bool value " ++ goQuote str)

/-- Model of `parseBoolDefault` (util.go). -/
def parseBoolDefault (str : String) (dflt : Bool) : Bool :=
  match ParseBool str with
  | .ok v => v
  | .error _ => dflt

/-! ### Character-list string utilities used by the model -/

/-- ASCII lower-casing of one character. -/
def lowerChar (c : Char) : Char :=
  if 65 ≤ c.toNat ∧ c.toNat ≤ 90 then Char.ofNat (c.toNat + 32) else c

/-- ASCII lower-casing of a string. -/
def lowerStr (s : String) : String := String.mk (s.toList.map lowerChar)

/-- Whitespace recognised by `strings.Fields` (restricted to ASCII space
characters; the exotic Unicode spaces play no role in the claims). -/
def isSpaceGo (c : Char) : Bool :=
  c.toNat = 32 ∨ c.toNat = 9 ∨ c.toNat = 10 ∨ c.toNat = 11 ∨ c.toNat = 12 ∨ c.toNat = 13

/-- Split a character list at every character satisfying `p`, keeping empty
pieces (the semantics of `strings.Split` for one-character separators). -/
def splitIf (p : Char → Bool) : List Char → List (List Char)
  | [] => [[]]
  | c :: rest =>
    match splitIf p rest with
    | [] => [[]]
    | cur :: others => if p c then [] :: cur :: others else (c :: cur) :: others

/-- Model of `strings.Split(s, ",")`. -/
def splitComma (s : String) : List String :=
  (splitIf (fun c => c = ',') s.toList).map String.mk

/-- Model of `strings.Fields`: split on whitespace runs, dropping empties. -/
def fieldsOf (s : String) : List String :=
  ((splitIf isSpaceGo s.toList).filter (fun l => !l.isEmpty)).map String.mk

/-- Trim leading and trailing ASCII whitespace. -/
def trimSpaces (l : List Char) : List Char :=
  ((l.dropWhile isSpaceGo).reverse.dropWhile isSpaceGo).reverse

/-- Fuel-driven core of `strings.ReplaceAll` for a non-empty pattern:
replaces non-overlapping occurrences left to right. -/
def replaceAllAux (pat rep : List Char) : Nat → List Char → List Char
  | 0, s => s
  | fuel + 1, s =>
    match s with
    | [] => []
    | c :: rest =>
      if pat.isPrefixOf s then rep ++ replaceAllAux pat rep fuel (s.drop pat.length)
      else c :: replaceAllAux pat rep fuel rest

/-- Model of `strings.ReplaceAll(s, pat, rep)` (the library only calls it with
the non-empty pattern `":" + name`). -/
def replaceAllStr (s pat rep : String) : String :=
  if pat.toList = [] then s
  else String.mk (replaceAllAux pat.toList rep.toList s.toList.length s.toList)

/-- Does `pat` occur as a contiguous sublist of `s`? -/
def containsSub (pat : List Char) : List Char → Bool
  | [] => decide (pat = [])
  | c :: rest => pat.isPrefixOf (c :: rest) || containsSub pat rest

/-! ### Multimaps (model of url.Values and of Go string-keyed maps) -/

/-- First value stored under a key, or none. -/
def mmLookup {α : Type} (m : List (String × α)) (k : String) : Option α :=
  match m.find? (fun p => decide (p.1 = k)) with
  | some p => some p.2
  | none => none

/-- Model of `url.Values.Get`: first value under the key, or the empty
string. -/
def mmGet (m : List (String × List String)) (k : String) : String :=
  match mmLookup m k with
  | some (v :: _) => v
  | _ => ""

/-- Model of `url.Values.Set`: replace the key's values with the single given
value (in place if the key exists, appended otherwise). -/
def mmSet (m : List (String × List String)) (k : String) (v : String) :
    List (String × List String) :=
  if (m.find? (fun p => decide (p.1 = k))).isSome then
    m.map (fun p => if p.1 = k then (k, [v]) else p)
  else m ++ [(k, [v])]

/-- Append values under a key (adding the key at the end if absent); used to
model how `ParseForm` merges body values with URL query values. -/
def mmAppend (m : List (String × List String)) (k : String) (vs : List String) :
    List (String × List String) :=
  if (m.find? (fun p => decide (p.1 = k))).isSome then
    m.map (fun p => if p.1 = k then (p.1, p.2 ++ vs) else p)
  else m ++ [(k, vs)]

/-- Merge two multimaps, keeping `a`'s values first per key (Go's `ParseForm`
copies the URL query values after the body values). -/
def mergeMM (a b : List (String × List String)) : List (String × List String) :=
  b.foldl (fun m p => mmAppend m p.1 p.2) a

/-- Go map assignment `m[k] = v` on an association list: replace in place or
append. -/
def amInsert {α : Type} (m : List (String × α)) (k : String) (v : α) :
    List (String × α) :=
  if (m.find? (fun p => decide (p.1 = k))).isSome then
    m.map (fun p => if p.1 = k then (k, v) else p)
  else m ++ [(k, v)]

/-! ### source enumeration (part_000) -/

/-- The `source` enumeration of part_000. -/
inductive Source where
  | noSrc | pathSrc | formSrc | cookieSrc | headerSrc
  | requestSrc | urlSrc | queryValuesSrc | headersSrc
  | methodSrc | isSaveSrc | rawBodySrc | fullBodySrc
  deriving DecidableEq, Repr

/-- Model of `source.IsNamed`: sources strictly before `requestSrc`. -/
def Source.IsNamed : Source → Bool
  | .noSrc | .pathSrc | .formSrc | .cookieSrc | .headerSrc => true
  | _ => false

/-! ### Go types and struct fields (the fragment the library dispatches on)

Types implementing `encoding.TextMarshaler` / `TextUnmarshaler` are outside
this embedding; none of the modelled types implement the textual-codec
capability, so `pickParser` / `pickStringer` start directly at the kind
switch. -/

mutual
/-- The static Go types the library dispatches on: scalar kinds, slices,
pointers, the four special request-derived types, `any`, and struct types
(for embedded fields). -/
inductive GoType where
  | tString | tBool
  | tInt | tInt8 | tInt16 | tInt32 | tInt64
  | tUint | tUintptr | tUint8 | tUint16 | tUint32 | tUint64
  | tFloat32 | tFloat64
  | tSlice (elem : GoType)
  | tPtr (elem : GoType)
  | tRequestPtr | tURLPtr | tURLValues | tHeader
  | tAny
  | tStruct (fields : List GoField)

/-- One Go struct field: name, exportedness, anonymous (embedded) flag, static
type, and the raw `json:"..."` / `form:"..."` tags. -/
inductive GoField where
  | mk (name : String) (exported : Bool) (anonymous : Bool) (typ : GoType)
      (jsonTag : Option String) (formTag : Option String)
end

def GoField.name : GoField → String
  | .mk n _ _ _ _ _ => n

def GoField.exported : GoField → Bool
  | .mk _ e _ _ _ _ => e

def GoField.anonymous : GoField → Bool
  | .mk _ _ a _ _ _ => a

def GoField.typ : GoField → GoType
  | .mk _ _ _ t _ _ => t

def GoField.jsonTag : GoField → Option String
  | .mk _ _ _ _ j _ => j

def GoField.formTag : GoField → Option String
  | .mk _ _ _ _ _ f => f

/-! ### Values -/

/-- The collaborator-facing model of an HTTP request (net/http): method,
opaque URL string, parsed query multimap, headers, cookies, body bytes. -/
structure Request where
  method : String
  urlStr : String
  query : List (String × List String)
  headers : List (String × String)
  cookies : List (String × String)
  body : String
  deriving DecidableEq, Repr

/-- Generic decoded JSON value, as produced by the external JSON codec
(numbers restricted to integers, which is all the claims exercise). -/
inductive JValue where
  | null
  | jbool (b : Bool)
  | num (n : Int)
  | str (s : String)
  | arr (items : List JValue)
  | obj (entries : List (String × JValue))
  deriving Repr

/-- Runtime values stored in a destination record's fields. -/
inductive Val where
  | vStr (s : String)
  | vBool (b : Bool)
  | vInt (i : Int)
  | vUint (n : Nat)
  | vFloat (q : ℚ)
  | vSlice (items : List Val)
  | vPtr (v : Option Val)
  | vBytes (s : String)
  | vJson (j : JValue)
  | vRequest (r : Request)
  | vUrl (u : String)
  | vQuery (q : List (String × List String))
  | vHeaders (h : List (String × String))
  deriving Repr

/-- Model of `reflect.Zero` on the embedded types (`nil` interface values are
rendered as `vJson .null`). -/
def zeroVal : GoType → Val
  | .tString => .vStr ""
  | .tBool => .vBool false
  | .tInt | .tInt8 | .tInt16 | .tInt32 | .tInt64 => .vInt 0
  | .tUint | .tUintptr | .tUint8 | .tUint16 | .tUint32 | .tUint64 => .vUint 0
  | .tFloat32 | .tFloat64 => .vFloat 0
  | .tSlice _ => .vSlice []
  | .tPtr _ => .vPtr none
  | .tRequestPtr => .vPtr none
  | .tURLPtr => .vPtr none
  | .tURLValues => .vQuery []
  | .tHeader => .vHeaders []
  | .tAny => .vJson .null
  | .tStruct _ => .vPtr none

/-! ### parser.go: pickParser and pickStringer -/

/-- The value produced by the source's `uint64` parser branch, which converts
the parsed `uint64` through `int64` before converting back to the field type;
the round trip is value-preserving (proved below) but is modelled literally. -/
def uint64ViaInt64 (n : Nat) : Nat :=
  ((if n < 2 ^ 63 then (n : Int) else (n : Int) - 2 ^ 64) % (2 ^ 64 : Int)).toNat

/-- Model of `strconv.ParseFloat(s, bits)` on the plain decimal forms
`[+-]digits[.digits]`, as an exact rational.  The claims exercise only the
empty-string guard of the float parser branches, which returns before this
function is reached; IEEE rounding to the given bit width, exponent forms
and the Inf/NaN specials are not modelled. -/
def parseFloatGo (s : String) (_bits : Nat) : Except String ℚ :=
  let sd := signSplit s.toList
  let fail : Except String ℚ :=
    .error ("strconv.ParseFloat: parsing " ++ s ++ ": invalid syntax")
  match splitIf (fun c => c = '.') sd.2 with
  | [ip] =>
    match parseNatDigits ip with
    | some n => .ok (if sd.1 then -(n : ℚ) else (n : ℚ))
    | none => fail
  | [ip, fp] =>
    match parseNatDigits (ip ++ fp) with
    | some n =>
      let q : ℚ := (n : ℚ) / ((10 : ℚ) ^ fp.length)
      .ok (if sd.1 then -q else q)
    | none => fail
  | _ => fail

/-- Fuel-driven fractional decimal expansion of `r / den` (for `r < den`),
used by the float stringer model. -/
def fracDigitsAux : Nat → Nat → Nat → List Char
  | 0, _, _ => []
  | _, 0, _ => []
  | fuel + 1, r, den =>
    digitChar ((r * 10) / den) :: fracDigitsAux fuel ((r * 10) % den) den

/-- Model of `strconv.FormatFloat` (shortest form) on the exact-decimal
subdomain the parser model produces: sign, integer part and the finite
fractional expansion; exponent output for extreme magnitudes is not
modelled (no claim exercises float stringification). -/
def formatFloatGo (q : ℚ) : String :=
  let sign := if q < 0 then "-" else ""
  let n := q.num.natAbs
  let ipart := n / q.den
  let r := n % q.den
  if r = 0 then sign ++ natRepr ipart
  else sign ++ natRepr ipart ++ "." ++ String.mk (fracDigitsAux 64 r q.den)

/-- Model of `pickParser` (parser.go): per static type, an optional
string-to-value parser.  The separator option is accepted by the source but
never used (the slice branch always splits with `strings.Fields`), so it is
not carried here.  Calling the parser a slice or pointer branch builds for an
unsupported element type panics in the source (nil function call); here that
is an error value. -/
def pickParser : GoType → Option (String → Except String Val)
  | .tString => some (fun s => .ok (.vStr s))
  | .tBool => some (fun s =>
      if s = "" then .ok (.vBool false)
      else match ParseBool s with
        | .error e => .error e
        | .ok v => .ok (.vBool v))
  | .tInt => some (fun s =>
      if s = "" then .ok (.vInt 0)
      else (parseIntGo s 64).map .vInt)
  | .tInt8 => some (fun s =>
      if s = "" then .ok (.vInt 0)
      else (parseIntGo s 8).map .vInt)
  | .tInt16 => some (fun s =>
      if s = "" then .ok (.vInt 0)
      else (parseIntGo s 16).map .vInt)
  | .tInt32 => some (fun s =>
      if s = "" then .ok (.vInt 0)
      else (parseIntGo s 32).map .vInt)
  | .tInt64 => some (fun s =>
      if s = "" then .ok (.vInt 0)
      else (parseIntGo s 64).map .vInt)
  | .tUint => some (fun s =>
      if s = "" then .ok (.vUint 0)
      else (parseUintGo s 64).map .vUint)
  | .tUintptr => some (fun s =>
      if s = "" then .ok (.vUint 0)
      else (parseUintGo s 64).map .vUint)
  | .tUint8 => some (fun s =>
      if s = "" then .ok (.vUint 0)
      else (parseUintGo s 8).map .vUint)
  | .tUint16 => some (fun s =>
      if s = "" then .ok (.vUint 0)
      else (parseUintGo s 16).map .vUint)
  | .tUint32 => some (fun s =>
      if s = "" then .ok (.vUint 0)
      else (parseUintGo s 32).map .vUint)
  | .tUint64 => some (fun s =>
      if s = "" then .ok (.vUint 0)
      else (parseUintGo s 64).map (fun n => .vUint (uint64ViaInt64 n)))
  | .tFloat32 => some (fun s =>
      if s = "" then .ok (.vFloat 0)
      else (parseFloatGo s 32).map .vFloat)
  | .tFloat64 => some (fun s =>
      if s = "" then .ok (.vFloat 0)
      else (parseFloatGo s 64).map .vFloat)
  | .tSlice elem =>
    let child := pickParser elem
    some (fun s =>
      if s = "" then .ok (.vSlice [])
      else match child with
        | none => .error "httpform model: nil element parser invoked"
        | some p =>
          let items : Except String (List Val) :=
            (fieldsOf s).foldlM
              (fun (acc : List Val) itemStr =>
                match p itemStr with
                | .error e => .error e
                | .ok v => .ok (acc ++ [v]))
              []
          items.map .vSlice)
  | .tPtr elem =>
    let child := pickParser elem
    some (fun s =>
      if s = "" then .ok (.vPtr none)
      else match child with
        | none => .error "httpform model: nil element parser invoked"
        | some p =>
          match p s with
          | .error e => .error e
          | .ok v => .ok (.vPtr (some v)))
  | _ => none

/-- Model of `pickStringer` (parser.go).  A kind mismatch between the stored
value and the static type corresponds to a `reflect` panic in the source and
is an error value here (which `getString` turns into a panic). -/
def pickStringer : GoType → Option (Val → Except String String)
  | .tString => some (fun v =>
      match v with
      | .vStr s => .ok s
      | _ => .error "kind mismatch")
  | .tBool => some (fun v =>
      match v with
      | .vBool b => .ok (if b then "true" else "false")
      | _ => .error "kind mismatch")
  | .tInt | .tInt8 | .tInt16 | .tInt32 | .tInt64 => some (fun v =>
      match v with
      | .vInt i => .ok (formatIntGo i)
      | _ => .error "kind mismatch")
  | .tUint | .tUintptr | .tUint8 | .tUint16 | .tUint32 | .tUint64 => some (fun v =>
      match v with
      | .vUint n => .ok (natRepr n)
      | _ => .error "kind mismatch")
  | .tFloat32 | .tFloat64 => some (fun v =>
      match v with
      | .vFloat q => .ok (formatFloatGo q)
      | _ => .error "kind mismatch")
  | .tSlice elem =>
    let child := pickStringer elem
    some (fun v =>
      match v with
      | .vSlice items =>
        if items.isEmpty then .ok ""
        else match child with
          | none => .error "httpform model: nil element stringer invoked"
          | some f =>
            let strs : Except String (List String) :=
              items.foldlM
                (fun (acc : List String) item =>
                  match f item with
                  | .error e => .error e
                  | .ok s => .ok (acc ++ [s]))
                []
            strs.map (String.intercalate " ")
      | _ => .error "kind mismatch")
  | .tPtr elem =>
    let child := pickStringer elem
    some (fun v =>
      match v with
      | .vPtr none => .ok ""
      | .vPtr (some inner) =>
        match child with
        | none => .error "httpform model: nil element stringer invoked"
        | some f => f inner
      | _ => .error "kind mismatch")
  | _ => none

/-! ### Configuration (part_000) -/

/-- The `Configuration` policy struct (part_000); the schema cache is not
modelled (lookupStruct compiles afresh, which the source guarantees to be
observably identical). -/
structure Configuration where
  AllowJSON : Bool
  AllowForm : Bool
  AllowMultipart : Bool
  JSONBodyFallbackParam : String
  MaxMultipartMemory : Nat
  DisallowUnknownFields : Bool
  AllowUnknownFieldsHeader : String
  deriving DecidableEq, Repr

/-- The package-level `Default` configuration (part_000). -/
def defaultConf : Configuration :=
  { AllowJSON := true
    AllowForm := true
    AllowMultipart := true
    JSONBodyFallbackParam := "_body"
    MaxMultipartMemory := 32 * (1 <<< 20)
    DisallowUnknownFields := false
    AllowUnknownFieldsHeader := "" }

/-! ### reflection.go: field metadata and the schema compiler -/

/-- Model of `fieldMeta`: instead of the resolved `Parse` / `Stringify`
closures the static type is stored, and the closures are recovered with
`pickParser` / `pickStringer` (which are pure in the type). -/
structure FieldMeta where
  fieldIdx : List Nat
  name : String
  typ : GoType
  Source : Source
  Optional : Bool
  NotInBody : Bool
  IsJSONOnly : Bool

/-- Model of `structMeta`. -/
structure StructMeta where
  NamedFields : List (String × FieldMeta)
  UnnamedFields : List FieldMeta
  HasRawBody : Bool
  HasFullBody : Bool
  HasBodyForm : Bool

/-- The emit loop of `examineStruct`: named fields go into the name-keyed map
(Go map assignment, i.e. silent overwrite), unnamed fields into the ordered
list, and the three derived booleans are scans of the emitted fields. -/
def mkStructMeta (fms : List FieldMeta) : StructMeta :=
  { NamedFields :=
      fms.foldl (fun m fm => if fm.Source.IsNamed then amInsert m fm.name fm else m) []
    UnnamedFields := fms.filter (fun fm => !fm.Source.IsNamed)
    HasRawBody := fms.any (fun fm => decide (fm.Source = .rawBodySrc))
    HasFullBody := fms.any (fun fm => decide (fm.Source = .fullBodySrc))
    HasBodyForm := fms.any (fun fm => decide (fm.Source = .formSrc) && !fm.NotInBody) }

/-- One modifier of a `form:"name,mod,..."` tag (the switch inside
`examineField`); the state is (source, optional, notinbody, jsononly).  The
separator selectors are recognised but the separator itself is dead data: the
source's `pickParser` never reads it. -/
def applyMod (fieldName : String) (st : Source × Bool × Bool × Bool) (mod : String) :
    Except String (Source × Bool × Bool × Bool) :=
  let setSrc : Source → Except String (Source × Bool × Bool × Bool) := fun s =>
    if st.1 ≠ .noSrc then
      .error ("field " ++ fieldName ++ " has conflicting modifier " ++ mod)
    else .ok (s, st.2)
  if mod = "path" then setSrc .pathSrc
  else if mod = "cookie" then setSrc .cookieSrc
  else if mod = "header" then setSrc .headerSrc
  else if mod = "method" then setSrc .methodSrc
  else if mod = "issave" then setSrc .isSaveSrc
  else if mod = "rawbody" then setSrc .rawBodySrc
  else if mod = "fullbody" then setSrc .fullBodySrc
  else if mod = "notinbody" then .ok (st.1, st.2.1, true, st.2.2.2)
  else if mod = "jsononly" then .ok (st.1, st.2.1, st.2.2.1, true)
  else if mod = "optional" then .ok (st.1, true, st.2.2)
  else if mod = "sep=comma" ∨ mod = "sep=semicolon" ∨ mod = "sep=colon" then .ok st
  else .error ("field " ++ fieldName ++ " has unknown modifier " ++ mod)

mutual
/-- Model of `examineStructFields`: visit each field in declaration order with
its index appended to the embedding prefix. -/
def examineFieldsAux (conf : Configuration) (fields : List GoField)
    (prefixIdx : List Nat) (i : Nat) : Except String (List FieldMeta) :=
  match fields with
  | [] => .ok []
  | f :: rest =>
    match examineField conf (prefixIdx ++ [i]) f with
    | .error e => .error e
    | .ok fms =>
      match examineFieldsAux conf rest prefixIdx (i + 1) with
      | .error e => .error e
      | .ok fmsRest => .ok (fms ++ fmsRest)

/-- Model of `examineField` (reflection.go): fatal validation errors are
`.error`, a skipped field is `.ok []`, an emitted binding `.ok [fm]`, and an
anonymous embedded struct contributes its flattened sub-fields. -/
def examineField (conf : Configuration) (fieldIdx : List Nat) (f : GoField) :
    Except String (List FieldMeta) :=
  match f with
  | .mk fname fexported fanonymous ftyp fjsonTag fformTag =>
    if !fexported then .ok [] else
    let src0 : Source :=
      match ftyp with
      | .tRequestPtr => .requestSrc
      | .tURLPtr => .urlSrc
      | .tURLValues => .queryValuesSrc
      | .tHeader => .headersSrc
      | _ => .noSrc
    let jsonInfo : String × Bool × Bool :=
      match fjsonTag with
      | none => (fname, false, false)
      | some tag =>
        let n := (splitComma tag).headD ""
        if n ≠ "" then (n, true, n = "-") else (fname, false, false)
    let jsonName := jsonInfo.1
    let jsonNamed := jsonInfo.2.1
    let jsonSkipped := jsonInfo.2.2
    let formRes : Except String (Option (String × (Source × Bool × Bool × Bool))) :=
      match fformTag with
      | none => .ok (some ("", (src0, false, false, false)))
      | some tag =>
        let comps := splitComma tag
        let n := comps.headD ""
        if n = "-" then .ok none
        else
          match (comps.drop 1).foldlM (applyMod fname) (src0, false, false, false) with
          | .error e => .error e
          | .ok st => .ok (some (n, st))
    match formRes with
    | .error e => .error e
    | .ok none => .ok []
    | .ok (some (formName, st)) =>
      let src : Source := if st.1 = .noSrc then .formSrc else st.1
      let isOptional := st.2.1
      let isNotInBody := st.2.2.1
      let isJSONOnly := st.2.2.2
      let formPresent := fformTag.isSome
      let jsonPresent := fjsonTag.isSome
      if fanonymous && !formPresent && !jsonPresent then
        match ftyp with
        | .tStruct inner => examineFieldsAux conf inner fieldIdx 0
        | _ => .error ("field " ++ fname ++ ": embedded field is not a struct")
      else if src.IsNamed && !formPresent && !jsonPresent then
        .error ("field " ++ fname ++ " must have a form or json tag")
      else if conf.AllowJSON && src ≠ .formSrc && !jsonSkipped then
        .error ("field " ++ fname ++ " must have a json skip tag")
      else if !src.IsNamed then
        if formName ≠ "" then
          .error ("field " ++ fname ++ " cannot have a name in its form tag")
        else
          .ok [{ fieldIdx := fieldIdx, name := "", typ := ftyp, Source := src,
                 Optional := false, NotInBody := false, IsJSONOnly := false }]
      else
        let nameRes : Except String String :=
          if src = .formSrc ∧ conf.AllowJSON then
            if !jsonNamed then .error ("field " ++ fname ++ " must have a json name tag")
            else if formName ≠ "" ∧ formName ≠ jsonName then
              .error ("field " ++ fname ++ " has an unnecessary mismatched form name")
            else .ok jsonName
          else
            if formName = "" then .error ("field " ++ fname ++ " must have a form name tag")
            else .ok formName
        match nameRes with
        | .error e => .error e
        | .ok name =>
          if (pickParser ftyp).isNone && !isJSONOnly then
            .error ("field " ++ fname ++ ": no known string parser for its type")
          else if (pickStringer ftyp).isNone && !isJSONOnly then
            .error ("field " ++ fname ++ ": no known stringer for its type")
          else
            .ok [{ fieldIdx := fieldIdx, name := name, typ := ftyp, Source := src,
                   Optional := isOptional, NotInBody := isNotInBody,
                   IsJSONOnly := isJSONOnly }]
end

/-- Model of `examineStruct` (and of `lookupStruct`, whose cache is omitted:
compilation is deterministic, so cache hits and fresh compiles agree). -/
def examineStruct (conf : Configuration) (ty : List GoField) : Except String StructMeta :=
  match examineFieldsAux conf ty [] 0 with
  | .error e => .error e
  | .ok fms => .ok (mkStructMeta fms)

/-! ### error.go -/

/-- The `Error` struct of error.go: HTTP code, message, wrapped cause
(the cause is carried as its rendered string). -/
structure HError where
  code : Nat
  message : String
  cause : Option String
  deriving DecidableEq, Repr

/-- Model of `Error.Error()`: concatenate "HTTP code", message and cause,
omitting empty segments, with ": " before the cause. -/
def HError.render (e : HError) : String :=
  let buf := if e.code ≠ 0 then "HTTP " ++ natRepr e.code else ""
  let buf := if e.message ≠ "" then (if buf ≠ "" then buf ++ " " else buf) ++ e.message else buf
  match e.cause with
  | none => buf
  | some c => (if buf ≠ "" then buf ++ ": " else buf) ++ c

/-- Decode outcomes: `fatal` models a Go panic (programming error), `req` a
returned `*Error` (request error). -/
inductive DError where
  | fatal (msg : String)
  | req (e : HError)
  deriving DecidableEq, Repr

/-! ### Destination records -/

/-- A destination struct value, as a total assignment of runtime values to
field index paths (the `fieldIdx` paths of `reflect.Value.FieldByIndex`). -/
def Record : Type := List Nat → Val

/-- Model of `reflect`'s field write through an index path. -/
def Record.set (rec : Record) (idx : List Nat) (v : Val) : Record :=
  fun i => if i = idx then v else rec i

/-- Does the static type take an `Int`-classed value? -/
def isIntT : GoType → Bool
  | .tInt | .tInt8 | .tInt16 | .tInt32 | .tInt64 => true
  | _ => false

/-- Does the static type take a `Nat`-classed value? -/
def isUintT : GoType → Bool
  | .tUint | .tUintptr | .tUint8 | .tUint16 | .tUint32 | .tUint64 => true
  | _ => false

/-- Model of `reflect.Value.CanConvert` + `Convert` on the embedded fragment:
a value converts exactly to a field type of its own class (the pipeline only
converts values the parsers and request accessors produced for that type). -/
def convertVal (v : Val) (t : GoType) : Option Val :=
  match v with
  | .vStr s => match t with
    | .tString => some (.vStr s)
    | _ => none
  | .vBool b => match t with
    | .tBool => some (.vBool b)
    | _ => none
  | .vInt i => if isIntT t then some (.vInt i) else none
  | .vUint n => if isUintT t then some (.vUint n) else none
  | .vFloat q => match t with
    | .tFloat32 => some (.vFloat q)
    | .tFloat64 => some (.vFloat q)
    | _ => none
  | .vSlice items => match t with
    | .tSlice _ => some (.vSlice items)
    | _ => none
  | .vPtr p => match t with
    | .tPtr _ => some (.vPtr p)
    | _ => none
  | .vBytes s => match t with
    | .tSlice .tUint8 => some (.vBytes s)
    | _ => none
  | .vJson j => match t with
    | .tAny => some (.vJson j)
    | _ => none
  | .vRequest r => match t with
    | .tRequestPtr => some (.vRequest r)
    | _ => none
  | .vUrl u => match t with
    | .tURLPtr => some (.vUrl u)
    | _ => none
  | .vQuery q => match t with
    | .tURLValues => some (.vQuery q)
    | _ => none
  | .vHeaders h => match t with
    | .tHeader => some (.vHeaders h)
    | _ => none

/-- Model of `setFieldVal` (reflection.go): an unconvertible value is a
panic. -/
def setFieldVal (rec : Record) (fm : FieldMeta) (v : Val) : Except DError Record :=
  match convertVal v fm.typ with
  | none => .error (.fatal ("cannot convert value for " ++ fm.name))
  | some v' => .ok (Record.set rec fm.fieldIdx v')

/-- Model of `setField` (reflection.go), with the caller's uniform
`&Error{400, "", err}` wrapping of the returned `invalid <name>: <cause>`
error inlined (every call site wraps identically).  A nil `Parse` function
(possible for a `jsononly` field with an unsupported type) panics when
called. -/
def setField (rec : Record) (fm : FieldMeta) (rawValue : String) : Except DError Record :=
  match pickParser fm.typ with
  | none => .error (.fatal ("nil parser for " ++ fm.name))
  | some p =>
    match p rawValue with
    | .error e => .error (.req ⟨400, "", some ("invalid " ++ fm.name ++ ": " ++ e)⟩)
    | .ok v => setFieldVal rec fm v

/-- Model of `setVal` (reflection.go). -/
def setVal (rec : Record) (sm : StructMeta) (src : Source) (name : String)
    (rawValue : String) : Except DError Record :=
  match mmLookup sm.NamedFields name with
  | some fm =>
    if fm.Source = src then setField rec fm rawValue
    else if src ≠ .formSrc then .error (.fatal ("no input field for param " ++ name))
    else .ok rec
  | none =>
    if src ≠ .formSrc then .error (.fatal ("no input field for param " ++ name))
    else .ok rec

/-- Model of `getString` (reflection.go): a stringify failure (or nil
stringer) is a panic, modelled as the encoders' error channel. -/
def getString (rec : Record) (fm : FieldMeta) : Except String String :=
  match pickStringer fm.typ with
  | none => .error ("failed to encode value of " ++ fm.name)
  | some f =>
    match f (rec fm.fieldIdx) with
    | .error _ => .error ("failed to encode value of " ++ fm.name)
    | .ok s => .ok s

/-! ### util.go: content types -/

def formContentType : String := "application/x-www-form-urlencoded"

def multipartFormContentType : String := "multipart/form-data"

def jsonContentType : String := "application/json"

/-- Case-insensitive header lookup (Go canonicalises MIME header keys; for
the ASCII names used here that is case-insensitive matching). -/
def headerGet (hs : List (String × String)) (k : String) : String :=
  match hs.find? (fun p => decide (lowerStr p.1 = lowerStr k)) with
  | some p => p.2
  | none => ""

/-- Model of `determineMIMEType` (util.go): the media type of the
Content-Type header — the part before any ";", trimmed and lower-cased —
or "" when the header is absent.  (`mime.ParseMediaType` errors on malformed
parameter sections, also yielding ""; malformed parameters are not
modelled.) -/
def determineMIMEType (r : Request) : String :=
  let s := headerGet r.headers "Content-Type"
  if s = "" then ""
  else
    let base := (splitIf (fun c => c = ';') s.toList).headD []
    String.mk ((trimSpaces base).map lowerChar)

/-- The effective media type used by the dispatch: a body-less method
(GET/HEAD) is always treated as having no body. -/
def effectiveMIMEType (r : Request) : String :=
  if r.method = "GET" ∨ r.method = "HEAD" then "" else determineMIMEType r

/-! ### External collaborators (spec section 6) -/

/-- The standard-library collaborators: the JSON codec (decode the next JSON
value of a byte stream) and the URL-encoded / multipart form body parsers.
They are inputs of the model, not code of this repository. -/
structure Collab where
  jsonDec : String → Except String JValue
  parseURLEncodedBody : String → Except String (List (String × List String))
  parseMultipartBody : String → Except String (List (String × List String))

/-! ### JSON decoding into a struct (model of the external `encoding/json`
codec applied to a destination record; spec section 6 delegates this
entirely to the standard codec) -/

/-- The JSON object key a field answers to: the json tag's name, the field's
own name without a tag, or none for `json:"-"` / unexported fields. -/
def jsonFieldName? (fname : String) (jsonTag : Option String) : Option String :=
  match jsonTag with
  | some tag =>
    let n := (splitComma tag).headD ""
    if n = "-" then none else if n ≠ "" then some n else some fname
  | none => some fname

/-- All (key, index path, type) targets JSON object entries can populate:
plain exported fields under their JSON name, and the promoted fields of
anonymous embedded structs without their own json tag. -/
def jsonTargets : List GoField → List Nat → Nat → List (String × List Nat × GoType)
  | [], _, _ => []
  | f :: rest, pre, i =>
    (match f with
     | .mk fname fexported fanonymous ftyp fjsonTag _ =>
       if !fexported then []
       else
         match ftyp, fanonymous, fjsonTag with
         | .tStruct inner, true, none => jsonTargets inner (pre ++ [i]) 0
         | _, _, _ =>
           match jsonFieldName? fname fjsonTag with
           | some n => [(n, pre ++ [i], ftyp)]
           | none => []) ++ jsonTargets rest pre (i + 1)

mutual
/-- Convert one decoded JSON value into a field value of the given type;
`.ok none` is the codec's no-op (null into a non-nillable type). -/
def jvalSet (jv : JValue) (t : GoType) : Except String (Option Val) :=
  match jv, t with
  | .null, .tPtr _ => .ok (some (.vPtr none))
  | .null, .tSlice _ => .ok (some (.vSlice []))
  | .null, .tAny => .ok (some (.vJson .null))
  | .null, _ => .ok none
  | .str s, .tString => .ok (some (.vStr s))
  | .jbool b, .tBool => .ok (some (.vBool b))
  | .num n, .tAny => .ok (some (.vJson (.num n)))
  | .num n, t' =>
    if isIntT t' then .ok (some (.vInt n))
    else if isUintT t' then
      if 0 ≤ n then .ok (some (.vUint n.toNat))
      else .error "json: cannot unmarshal negative number into unsigned field"
    else .error "json: cannot unmarshal number"
  | .arr items, .tSlice elem =>
    match jvalSetList items elem with
    | .error e => .error e
    | .ok vs => .ok (some (.vSlice vs))
  | jv', .tAny => .ok (some (.vJson jv'))
  | _, _ => .error "json: cannot unmarshal value into field"

/-- Element-wise conversion for arrays (a null element becomes the element
type's zero value). -/
def jvalSetList (items : List JValue) (elem : GoType) : Except String (List Val) :=
  match items with
  | [] => .ok []
  | j :: rest =>
    match jvalSet j elem with
    | .error e => .error e
    | .ok v =>
      match jvalSetList rest elem with
      | .error e => .error e
      | .ok vs => .ok ((v.getD (zeroVal elem)) :: vs)
end

/-- Decode a JSON value into the destination record through the struct's json
tags (the external codec's `Decoder.Decode(dest)`), honouring
`DisallowUnknownFields`. -/
def jsonFill (ty : List GoField) (disallowUnknown : Bool) (j : JValue) (rec : Record) :
    Except String Record :=
  match j with
  | .obj entries =>
    entries.foldlM
      (fun (rec : Record) kv =>
        match (jsonTargets ty [] 0).find? (fun t => decide (t.1 = kv.1)) with
        | some t =>
          match jvalSet kv.2 t.2.2 with
          | .error m => .error m
          | .ok none => .ok rec
          | .ok (some v) => .ok (Record.set rec t.2.1 v)
        | none =>
          if disallowUnknown then .error ("json: unknown field " ++ goQuote kv.1)
          else .ok rec)
      rec
  | _ => .error "json: cannot unmarshal value into struct"

/-! ### part_000: DecodeVal

`DecodeVal` is modelled as the sequential composition of its source blocks:
content-type dispatch (including raw-body capture), the form/query loop, the
JSON-body fallback, the named-field loop, and the unnamed-field loop.  The
request body is a consumable stream: `bstream` is its unread remainder, and
capturing the raw body replaces it with a re-readable view (the
`io.NopCloser(bytes.NewReader(rawBody))` of the source). -/

/-- Where `body()` reads from: the live request stream (consumed once) or a
fresh reader over captured bytes on every call. -/
inductive BodySrc where
  | live
  | buffered (s : String)

/-- Read everything from a body source; returns the bytes and the remaining
live stream. -/
def readSrc : BodySrc → String → String × String
  | .buffered s, st => (s, st)
  | .live, st => (st, "")

/-- The mutable state of one `DecodeVal` call. -/
structure DState where
  form : List (String × List String)
  dest : Record
  fullBody : Option JValue
  isBodyParsed : Bool
  bstream : String
  rawBody : String

/-- Model of the `parseJSONBody` closure: decode the body into the record
(when the schema has body form fields) and/or into the generic value (when it
has a fullbody field), each from a fresh reader over the source, and mark the
body as parsed. -/
def parseJSONBody (cb : Collab) (conf : Configuration) (ty : List GoField)
    (sm : StructMeta) (r : Request) (src : BodySrc) (st : DState) :
    Except DError DState :=
  let step1 : Except DError DState :=
    if sm.HasBodyForm then
      let rd := readSrc src st.bstream
      let disallow := conf.DisallowUnknownFields &&
        (conf.AllowUnknownFieldsHeader = "" ||
          !(parseBoolDefault (headerGet r.headers conf.AllowUnknownFieldsHeader) false))
      match cb.jsonDec rd.1 with
      | .error msg => .error (.req ⟨400, "JSON input", some msg⟩)
      | .ok j =>
        match jsonFill ty disallow j st.dest with
        | .error msg => .error (.req ⟨400, "JSON input", some msg⟩)
        | .ok rec' => .ok { st with dest := rec', bstream := rd.2 }
    else .ok st
  match step1 with
  | .error e => .error e
  | .ok st1 =>
    let step2 : Except DError DState :=
      if sm.HasFullBody then
        let rd := readSrc src st1.bstream
        match cb.jsonDec rd.1 with
        | .error msg => .error (.req ⟨400, "JSON input", some msg⟩)
        | .ok j => .ok { st1 with fullBody := some j, bstream := rd.2 }
      else .ok st1
    match step2 with
    | .error e => .error e
    | .ok st2 => .ok { st2 with isBodyParsed := true }

/-- Raw-body capture plus the content-type switch of `DecodeVal`: produces
the merged form/query multimap and any JSON-decoded state.  In the JSON and
no-content-type branches `PostForm` is emptied first, so `ParseForm` yields
the URL query only (query strings are carried pre-parsed by `Request`, so
that parse cannot fail here); in the form and multipart branches the body
stream is consumed by the standard form parser and merged body-first with the
query.  An unrecognised content type matches no switch case: the form map
stays empty. -/
def dispatchPhase (cb : Collab) (conf : Configuration) (r : Request)
    (ty : List GoField) (sm : StructMeta) (rec0 : Record) : Except DError DState :=
  let st0 : DState :=
    { form := [], dest := rec0, fullBody := none, isBodyParsed := false,
      bstream := r.body, rawBody := "" }
  let buffered := sm.HasRawBody || (sm.HasBodyForm && sm.HasFullBody)
  let st1 := if buffered then { st0 with rawBody := st0.bstream, bstream := st0.bstream } else st0
  let bodyFn : BodySrc := if buffered then .buffered st1.rawBody else .live
  let mtype := effectiveMIMEType r
  if mtype = jsonContentType then
    if !conf.AllowJSON then .error (.req ⟨415, "JSON input not allowed", none⟩)
    else
      match parseJSONBody cb conf ty sm r bodyFn st1 with
      | .error e => .error e
      | .ok st2 => .ok { st2 with form := r.query }
  else if mtype = "" then
    .ok { st1 with form := r.query }
  else if mtype = formContentType then
    let rd := readSrc .live st1.bstream
    match cb.parseURLEncodedBody rd.1 with
    | .error msg => .error (.req ⟨400, "", some msg⟩)
    | .ok pf => .ok { st1 with form := mergeMM pf r.query, bstream := rd.2 }
  else if mtype = multipartFormContentType then
    let rd := readSrc .live st1.bstream
    match cb.parseMultipartBody rd.1 with
    | .error msg => .error (.req ⟨400, "", some msg⟩)
    | .ok pf => .ok { st1 with form := mergeMM pf r.query, bstream := rd.2 }
  else
    .ok st1

/-- One key's values in the form loop: assign each value through `setVal`. -/
def formKeyStep (sm : StructMeta) (k : String) (rec : Record) (v : String) :
    Except DError Record :=
  setVal rec sm .formSrc k v

/-- One `r.Form` entry in the form loop. -/
def formEntryStep (sm : StructMeta) (rec : Record) (kv : String × List String) :
    Except DError Record :=
  kv.2.foldlM (formKeyStep sm kv.1) rec

/-- The `for k, vv := range r.Form` loop: assign every value under every key
through `setVal`, in multimap order. -/
def formPhase (sm : StructMeta) (form : List (String × List String)) (rec : Record) :
    Except DError Record :=
  form.foldlM (formEntryStep sm) rec

/-- The JSON-body fallback: when the body was not parsed as JSON and the
configured fallback form key holds a non-empty value, run `parseJSONBody`
over that value (a fresh string reader). -/
def fallbackPhase (cb : Collab) (conf : Configuration) (ty : List GoField)
    (sm : StructMeta) (r : Request) (st : DState) : Except DError DState :=
  if !st.isBodyParsed && conf.JSONBodyFallbackParam ≠ "" then
    if mmGet st.form conf.JSONBodyFallbackParam ≠ "" then
      parseJSONBody cb conf ty sm r
        (.buffered (mmGet st.form conf.JSONBodyFallbackParam)) st
    else .ok st
  else .ok st

/-- Path-parameter lookup (part_003): absent keys yield "". -/
def ppGet (pathParams : List (String × String)) (k : String) : String :=
  match mmLookup pathParams k with
  | some v => v
  | none => ""

/-- Cookie lookup through the lazily built name-keyed map (a later cookie
with the same name overwrites an earlier one). -/
def cookieLookup (cookies : List (String × String)) (name : String) : Option String :=
  mmLookup cookies.reverse name

/-- The named-field loop of `DecodeVal`: path, header and cookie sources
(form-sourced names were already covered by the form loop and hit the
`default` arm). -/
def namedStep (r : Request) (pathParams : List (String × String)) (rec : Record)
    (nfm : String × FieldMeta) : Except DError Record :=
  match nfm.2.Source with
  | .pathSrc =>
    if ppGet pathParams nfm.2.name = "" then
      if nfm.2.Optional then .ok rec
      else .error (.fatal ("missing path parameter " ++ goQuote nfm.2.name))
    else setField rec nfm.2 (ppGet pathParams nfm.2.name)
  | .headerSrc =>
    if headerGet r.headers nfm.2.name = "" then
      if nfm.2.Optional then .ok rec
      else .error (.req ⟨400, "missing header " ++ nfm.2.name, none⟩)
    else setField rec nfm.2 (headerGet r.headers nfm.2.name)
  | .cookieSrc =>
    match cookieLookup r.cookies nfm.2.name with
    | some cv => setField rec nfm.2 cv
    | none => .ok rec
  | _ => .ok rec

def namedPhase (r : Request) (pathParams : List (String × String))
    (sm : StructMeta) (rec : Record) : Except DError Record :=
  sm.NamedFields.foldlM (namedStep r pathParams) rec

/-- The unnamed-field loop of `DecodeVal`: fixed request-derived values with
no parsing.  A rawbody field must be a byte slice or a string (else panic); a
fullbody field receives the captured generic JSON value, or the zero value of
its type if no JSON body was decoded. -/
def unnamedStep (r : Request) (rawBody : String) (fullBody : Option JValue)
    (rec : Record) (fm : FieldMeta) : Except DError Record :=
  match fm.Source with
  | .requestSrc => setFieldVal rec fm (.vRequest r)
  | .urlSrc => setFieldVal rec fm (.vUrl r.urlStr)
  | .queryValuesSrc => setFieldVal rec fm (.vQuery r.query)
  | .headersSrc => setFieldVal rec fm (.vHeaders r.headers)
  | .methodSrc => setFieldVal rec fm (.vStr r.method)
  | .isSaveSrc =>
    setFieldVal rec fm
      (.vBool (decide (r.method = "POST" ∨ r.method = "PUT" ∨ r.method = "PATCH")))
  | .rawBodySrc =>
    match fm.typ with
    | .tSlice .tUint8 => .ok (Record.set rec fm.fieldIdx (.vBytes rawBody))
    | .tString => .ok (Record.set rec fm.fieldIdx (.vStr rawBody))
    | _ => .error (.fatal "invalid type of rawbody param")
  | .fullBodySrc =>
    match fullBody with
    | some j => setFieldVal rec fm (.vJson j)
    | none => .ok (Record.set rec fm.fieldIdx (zeroVal fm.typ))
  | _ => .ok rec

def unnamedPhase (r : Request) (sm : StructMeta) (rawBody : String)
    (fullBody : Option JValue) (rec : Record) : Except DError Record :=
  sm.UnnamedFields.foldlM (unnamedStep r rawBody fullBody) rec

/-- Model of `Configuration.DecodeVal` (part_000, first revision): schema
lookup, raw-body capture + content-type dispatch, form loop, JSON fallback,
named loop, unnamed loop.  The destination is passed as its current record
value `rec0` (the pointer-to-struct contract checks are outside the model's
domain). -/
def DecodeVal (cb : Collab) (conf : Configuration) (r : Request)
    (pathParams : List (String × String)) (ty : List GoField) (rec0 : Record) :
    Except DError Record :=
  match examineStruct conf ty with
  | .error e => .error (.fatal e)
  | .ok sm =>
    match dispatchPhase cb conf r ty sm rec0 with
    | .error e => .error e
    | .ok st1 =>
      match formPhase sm st1.form st1.dest with
      | .error e => .error e
      | .ok rec2 =>
        match fallbackPhase cb conf ty sm r { st1 with dest := rec2 } with
        | .error e => .error e
        | .ok st3 =>
          match namedPhase r pathParams sm st3.dest with
          | .error e => .error e
          | .ok rec4 => unnamedPhase r sm st3.rawBody st3.fullBody rec4

/-! ### part_000: the encoders -/

/-- One named field of the `EncodeToValues` loop: set (not append) the
stringified value of a form field in the multimap; other sources are
skipped. -/
def encStep (rec : Record) (vals : List (String × List String))
    (nfm : String × FieldMeta) : Except String (List (String × List String)) :=
  if nfm.2.Source = .formSrc then
    match getString rec nfm.2 with
    | .error e => .error e
    | .ok s => .ok (mmSet vals nfm.2.name s)
  else .ok vals

/-- The multimap entry `EncodeToValues` emits for one form field (the
stringified current value under the field's name; the error arm is dead on
the success path). -/
def encEntry (rec : Record) (g : String × FieldMeta) : String × List String :=
  (g.2.name,
    [(match getString rec g.2 with
      | .ok s => s
      | .error _ => "")])

/-- Model of `EncodeToValues`: set (not append) every named form field's
stringified value in the multimap.  Stringify panics surface as `.error`. -/
def EncodeToValues (conf : Configuration) (ty : List GoField) (rec : Record)
    (values : List (String × List String)) :
    Except String (List (String × List String)) :=
  match examineStruct conf ty with
  | .error e => .error e
  | .ok sm => sm.NamedFields.foldlM (encStep rec) values

/-- The loop body of `EncodeToPath`: substitute each path field's placeholder
in turn, panicking (".error") when a substitution leaves the path
unchanged. -/
def encodePathLoop (rec : Record) (origPath : String) :
    List (String × FieldMeta) → String → Except String String
  | [], path => .ok path
  | nfm :: rest, path =>
    if nfm.2.Source = .pathSrc then
      match getString rec nfm.2 with
      | .error e => .error e
      | .ok s =>
        if replaceAllStr path (":" ++ nfm.2.name) s = path then
          .error ((":" ++ nfm.2.name) ++ " is not found in " ++ origPath)
        else encodePathLoop rec origPath rest (replaceAllStr path (":" ++ nfm.2.name) s)
    else encodePathLoop rec origPath rest path

/-- Model of `EncodeToPath`. -/
def EncodeToPath (conf : Configuration) (ty : List GoField) (rec : Record)
    (path : String) : Except String String :=
  match examineStruct conf ty with
  | .error e => .error e
  | .ok sm => encodePathLoop rec path sm.NamedFields path

/-- The pure substitution `EncodeToPath` computes when it succeeds: fold
`ReplaceAll` over the path fields in order (with "" for a value that fails to
stringify, a case success excludes). -/
def pathSubstFold (rec : Record) (nfms : List (String × FieldMeta)) (path : String) :
    String :=
  nfms.foldl
    (fun p nfm =>
      if nfm.2.Source = .pathSrc then
        replaceAllStr p (":" ++ nfm.2.name)
          (match getString rec nfm.2 with
           | .ok s => s
           | .error _ => "")
      else p)
    path

/-- A fresh GET request over a query multimap, as used by the round-trip
property: no headers, no cookies, no body. -/
def requestFromValues (vals : List (String × List String)) : Request :=
  { method := "GET", urlStr := "", query := vals, headers := [], cookies := [], body := "" }

/-! ### Value/kind classification used by the round-trip statements -/

/-- The scalar kinds whose decimal codecs are exact (string, boolean, the
signed and unsigned integer widths), used by the round-trip statements; the
floating-point kinds are embedded with exact rationals but excluded from
this classification because IEEE rounding is not modelled. -/
def isScalarT : GoType → Bool
  | .tString | .tBool => true
  | .tInt | .tInt8 | .tInt16 | .tInt32 | .tInt64 => true
  | .tUint | .tUintptr | .tUint8 | .tUint16 | .tUint32 | .tUint64 => true
  | _ => false

/-- Is the stored value a well-formed inhabitant of the static type's domain
(right value class, integer within the kind's machine range)? -/
def kindOk : GoType → Val → Bool
  | .tString, .vStr _ => true
  | .tBool, .vBool _ => true
  | .tInt, .vInt i => decide (-(2 ^ 63 : Int) ≤ i ∧ i < 2 ^ 63)
  | .tInt8, .vInt i => decide (-(2 ^ 7 : Int) ≤ i ∧ i < 2 ^ 7)
  | .tInt16, .vInt i => decide (-(2 ^ 15 : Int) ≤ i ∧ i < 2 ^ 15)
  | .tInt32, .vInt i => decide (-(2 ^ 31 : Int) ≤ i ∧ i < 2 ^ 31)
  | .tInt64, .vInt i => decide (-(2 ^ 63 : Int) ≤ i ∧ i < 2 ^ 63)
  | .tUint, .vUint n => decide (n < 2 ^ 64)
  | .tUintptr, .vUint n => decide (n < 2 ^ 64)
  | .tUint8, .vUint n => decide (n < 2 ^ 8)
  | .tUint16, .vUint n => decide (n < 2 ^ 16)
  | .tUint32, .vUint n => decide (n < 2 ^ 32)
  | .tUint64, .vUint n => decide (n < 2 ^ 64)
  | _, _ => false

/-! ### Concrete instances used by the closed examples below

The collaborator instance is a stand-in for the standard library on the
handful of inputs the closed theorems exercise; its `jsonDec` agrees with
`encoding/json` on those inputs. -/

/-- A JSON request body used by the examples (an object with one field). -/
def jsonBodyEx : String := "\x7b \"foo\": \"bar\" \x7d"

/-- Concrete JSON decoder for the example inputs. -/
def jsonDecSimple (s : String) : Except String JValue :=
  if s = "42" then .ok (.num 42)
  else if s = jsonBodyEx then .ok (.obj [("foo", .str "bar")])
  else if s = "null" then .ok .null
  else .error "invalid character looking for beginning of value"

/-- Concrete URL-encoded body parser for the simple `k=v&k=v` bodies of the
examples (no percent escapes needed there). -/
def parseURLEncodedSimple (s : String) : Except String (List (String × List String)) :=
  let pair : List Char → String × List String := fun piece =>
    match splitIf (fun c => c = '=') piece with
    | [k, v] => (String.mk k, [String.mk v])
    | _ => (String.mk piece, [""])
  .ok (((splitIf (fun c => c = '&') s.toList).map pair).foldl
        (fun m p => mmAppend m p.1 p.2) [])

/-- The concrete collaborator instance. -/
def cbTest : Collab :=
  { jsonDec := jsonDecSimple
    parseURLEncodedBody := parseURLEncodedSimple
    parseMultipartBody := fun _ => .error "multipart unsupported in this instance" }

/-- An all-null initial destination record. -/
def recNil : Record := fun _ => .vJson .null

/-- A struct with a single required header-sourced string field named
`X-Foo` (the shape of `TestDecode_header_missing`). -/
def tyHeaderReq : List GoField :=
  [GoField.mk "Foo" true false .tString (some "-") (some "X-Foo,header")]

/-- The same field marked `optional`. -/
def tyHeaderOpt : List GoField :=
  [GoField.mk "Foo" true false .tString (some "-") (some "X-Foo,header,optional")]

/-- A struct with a single form-sourced int field named `_body` (which
collides with the default JSON body fallback parameter). -/
def tyBodyParam : List GoField :=
  [GoField.mk "Body" true false .tInt (some "_body") none]

/-- Two named fields that share the declared name "foo" under different
sources (header and form). -/
def tyDupName : List GoField :=
  [GoField.mk "A" true false .tString (some "-") (some "foo,header"),
   GoField.mk "B" true false .tString (some "foo") none]

/-- A rawbody string field next to a JSON-named form field (the shape of
`TestDecode_raw_mixed`). -/
def tyRawMixed : List GoField :=
  [GoField.mk "Body" true false .tString (some "-") (some ",rawbody"),
   GoField.mk "Foo" true false .tString (some "foo") none]

/-- A single path-sourced int field named `id`. -/
def tyPathId : List GoField :=
  [GoField.mk "ID" true false .tInt (some "-") (some "id,path")]

/-- A single form-sourced int field named `foo`. -/
def tyFooInt : List GoField :=
  [GoField.mk "Foo" true false .tInt (some "foo") none]

/-- A single form-sourced string field named `foo`. -/
def tyFooStr : List GoField :=
  [GoField.mk "Foo" true false .tString (some "foo") none]

/-! ## Theorems

First, helper lemmas about the decimal codecs; then per-claim theorems. -/

theorem charDigit_digitChar (d : Nat) (h : d < 10) : charDigit? (digitChar d) = some d := by
  interval_cases d <;> decide

theorem digitChar_toNat (d : Nat) (h : d < 10) : (digitChar d).toNat = 48 + d := by
  interval_cases d <;> decide

theorem natReprAux_digits (fuel : Nat) :
    ∀ n c, c ∈ natReprAux fuel n → 48 ≤ c.toNat ∧ c.toNat ≤ 57 := by
  induction fuel with
  | zero => intro n c hc; simp [natReprAux] at hc
  | succ fuel ih =>
    intro n c hc
    rw [natReprAux] at hc
    by_cases h0 : n = 0
    · simp [h0] at hc
    · rw [if_neg h0] at hc
      rcases List.mem_append.1 hc with h | h
      · exact ih _ _ h
      · have hd : c = digitChar (n % 10) := by simpa using h
        subst hd
        have hlt : n % 10 < 10 := Nat.mod_lt _ (by omega)
        rw [digitChar_toNat _ hlt]
        omega

theorem natReprAux_ne_nil (fuel n : Nat) (h0 : 0 < n) (hf : 0 < fuel) :
    natReprAux fuel n ≠ [] := by
  match fuel, hf with
  | fuel + 1, _ =>
    rw [natReprAux, if_neg (by omega : ¬ n = 0)]
    simp

theorem parseNatDigitsAux_natReprAux (fuel : Nat) :
    ∀ n acc rest, n ≤ fuel →
      parseNatDigitsAux acc (natReprAux fuel n ++ rest) =
        parseNatDigitsAux (acc * 10 ^ (natReprAux fuel n).length + n) rest := by
  induction fuel with
  | zero =>
    intro n acc rest h
    have : n = 0 := by omega
    subst this
    simp [natReprAux]
  | succ fuel ih =>
    intro n acc rest h
    by_cases h0 : n = 0
    · subst h0; simp [natReprAux]
    · rw [natReprAux, if_neg h0]
      have hdiv : n / 10 ≤ fuel := by omega
      rw [List.append_assoc, ih (n / 10) acc _ hdiv]
      have hmod : n % 10 < 10 := Nat.mod_lt _ (by omega)
      rw [List.singleton_append, parseNatDigitsAux, charDigit_digitChar _ hmod]
      show parseNatDigitsAux ((acc * 10 ^ (natReprAux fuel (n / 10)).length + n / 10) * 10 + n % 10) rest =
        parseNatDigitsAux (acc * 10 ^ (natReprAux fuel (n / 10) ++ [digitChar (n % 10)]).length + n) rest
      have harg : (acc * 10 ^ (natReprAux fuel (n / 10)).length + n / 10) * 10 + n % 10 =
          acc * 10 ^ (natReprAux fuel (n / 10) ++ [digitChar (n % 10)]).length + n := by
        simp only [List.length_append, List.length_singleton]
        rw [pow_succ, ← mul_assoc]
        generalize acc * 10 ^ (natReprAux fuel (n / 10)).length = Q
        omega
      rw [harg]

theorem parseNatDigits_natRepr (n : Nat) : parseNatDigits (natRepr n).toList = some n := by
  by_cases h0 : n = 0
  · subst h0; decide
  · have hne : natReprAux n n ≠ [] := natReprAux_ne_nil n n (by omega) (by omega)
    have htl : (natRepr n).toList = natReprAux n n := by
      rw [natRepr, if_neg h0]
      rfl
    rw [htl]
    obtain ⟨c, cs, hcs⟩ := List.exists_cons_of_ne_nil hne
    rw [hcs]
    show parseNatDigitsAux 0 (c :: cs) = some n
    have := parseNatDigitsAux_natReprAux n n 0 [] (le_refl n)
    rw [List.append_nil, hcs] at this
    rw [this]
    simp [parseNatDigitsAux]

theorem natRepr_digits (n : Nat) :
    ∀ c ∈ (natRepr n).toList, 48 ≤ c.toNat ∧ c.toNat ≤ 57 := by
  intro c hc
  by_cases h0 : n = 0
  · subst h0
    have : c = '0' := by
      simpa [natRepr] using hc
    subst this; decide
  · rw [natRepr, if_neg h0] at hc
    exact natReprAux_digits n n c hc

theorem natRepr_ne_empty (n : Nat) : natRepr n ≠ "" := by
  by_cases h0 : n = 0
  · subst h0; decide
  · rw [natRepr, if_neg h0]
    intro h
    have hne : natReprAux n n ≠ [] := natReprAux_ne_nil n n (by omega) (by omega)
    exact hne (by simpa [String.mk] using congrArg String.data h)

theorem parseUintGo_natRepr (n bits : Nat) (h : n < 2 ^ bits) :
    parseUintGo (natRepr n) bits = .ok n := by
  rw [parseUintGo, parseNatDigits_natRepr]
  simp [h]

theorem signSplit_digit_head (l : List Char) (h : ∀ c ∈ l, 48 ≤ c.toNat) :
    signSplit l = (false, l) := by
  match l with
  | [] => rfl
  | c :: rest =>
    have hc : 48 ≤ c.toNat := h c (by simp)
    have h1 : c ≠ '-' := by intro e; subst e; exact absurd hc (by decide)
    have h2 : c ≠ '+' := by intro e; subst e; exact absurd hc (by decide)
    unfold signSplit
    split
    · rename_i heq; injection heq with heq1 _; exact absurd heq1 h1
    · rename_i heq; injection heq with heq1 _; exact absurd heq1 h2
    · rfl

theorem uint64ViaInt64_id (n : Nat) (h : n < 2 ^ 64) : uint64ViaInt64 n = n := by
  unfold uint64ViaInt64
  split <;> omega

theorem parseIntGo_formatIntGo (i : Int) (bits : Nat)
    (h1 : -(2 ^ (bits - 1) : Int) ≤ i) (h2 : i < 2 ^ (bits - 1)) :
    parseIntGo (formatIntGo i) bits = .ok i := by
  by_cases hneg : i < 0
  · rw [formatIntGo, if_pos hneg, parseIntGo]
    have htl : (("-" : String) ++ natRepr i.natAbs).toList = '-' :: (natRepr i.natAbs).toList := by
      show (("-" : String) ++ natRepr i.natAbs).data = _
      rw [String.data_append]
      rfl
    rw [htl]
    show (match parseNatDigits (signSplit ('-' :: (natRepr i.natAbs).toList)).2 with
      | none => _ | some n => _) = _
    have hss : signSplit ('-' :: (natRepr i.natAbs).toList) =
        (true, (natRepr i.natAbs).toList) := rfl
    rw [hss]
    simp only [parseNatDigits_natRepr]
    have habs : ((i.natAbs : Nat) : Int) = -i := by omega
    rw [habs]
    simp only [if_true, neg_neg]
    rw [if_pos ⟨h1, h2⟩]
  · rw [formatIntGo, if_neg hneg, parseIntGo]
    have hss : signSplit (natRepr i.natAbs).toList = (false, (natRepr i.natAbs).toList) :=
      signSplit_digit_head _ (fun c hc => (natRepr_digits _ c hc).1)
    rw [hss]
    simp only [parseNatDigits_natRepr]
    have habs : ((i.natAbs : Nat) : Int) = i := by omega
    rw [habs]
    simp only [Bool.false_eq_true, if_false]
    rw [if_pos ⟨h1, h2⟩]

theorem formatIntGo_ne_empty (i : Int) : formatIntGo i ≠ "" := by
  rw [formatIntGo]
  split
  · intro h
    have hd : (("-" : String) ++ natRepr i.natAbs).data = '-' :: (natRepr i.natAbs).data := by
      rw [String.data_append]; rfl
    have := congrArg String.data h
    rw [hd] at this
    simp at this
  · exact natRepr_ne_empty _

theorem roundTripScalar (t : GoType) (v : Val) (hs : isScalarT t = true)
    (hk : kindOk t v = true) :
    ∃ strf p s, pickStringer t = some strf ∧ pickParser t = some p ∧
      strf v = .ok s ∧ p s = .ok v := by
  cases t with
  | tString =>
    cases v <;> simp [kindOk] at hk
    rename_i s
    exact ⟨_, _, s, rfl, rfl, rfl, rfl⟩
  | tBool =>
    cases v <;> simp [kindOk] at hk
    rename_i b
    cases b
    · exact ⟨_, _, "false", rfl, rfl, rfl, rfl⟩
    · exact ⟨_, _, "true", rfl, rfl, rfl, rfl⟩
  | tInt =>
    cases v <;> simp [kindOk] at hk
    rename_i i
    refine ⟨_, _, formatIntGo i, rfl, rfl, rfl, ?_⟩
    show (if formatIntGo i = "" then Except.ok (Val.vInt 0)
      else (parseIntGo (formatIntGo i) 64).map .vInt) = Except.ok (.vInt i)
    rw [if_neg (formatIntGo_ne_empty i),
      parseIntGo_formatIntGo i 64 (by omega) (by omega)]
    rfl
  | tInt8 =>
    cases v <;> simp [kindOk] at hk
    rename_i i
    refine ⟨_, _, formatIntGo i, rfl, rfl, rfl, ?_⟩
    show (if formatIntGo i = "" then Except.ok (Val.vInt 0)
      else (parseIntGo (formatIntGo i) 8).map .vInt) = Except.ok (.vInt i)
    rw [if_neg (formatIntGo_ne_empty i),
      parseIntGo_formatIntGo i 8 (by omega) (by omega)]
    rfl
  | tInt16 =>
    cases v <;> simp [kindOk] at hk
    rename_i i
    refine ⟨_, _, formatIntGo i, rfl, rfl, rfl, ?_⟩
    show (if formatIntGo i = "" then Except.ok (Val.vInt 0)
      else (parseIntGo (formatIntGo i) 16).map .vInt) = Except.ok (.vInt i)
    rw [if_neg (formatIntGo_ne_empty i),
      parseIntGo_formatIntGo i 16 (by omega) (by omega)]
    rfl
  | tInt32 =>
    cases v <;> simp [kindOk] at hk
    rename_i i
    refine ⟨_, _, formatIntGo i, rfl, rfl, rfl, ?_⟩
    show (if formatIntGo i = "" then Except.ok (Val.vInt 0)
      else (parseIntGo (formatIntGo i) 32).map .vInt) = Except.ok (.vInt i)
    rw [if_neg (formatIntGo_ne_empty i),
      parseIntGo_formatIntGo i 32 (by omega) (by omega)]
    rfl
  | tInt64 =>
    cases v <;> simp [kindOk] at hk
    rename_i i
    refine ⟨_, _, formatIntGo i, rfl, rfl, rfl, ?_⟩
    show (if formatIntGo i = "" then Except.ok (Val.vInt 0)
      else (parseIntGo (formatIntGo i) 64).map .vInt) = Except.ok (.vInt i)
    rw [if_neg (formatIntGo_ne_empty i),
      parseIntGo_formatIntGo i 64 (by omega) (by omega)]
    rfl
  | tUint =>
    cases v <;> simp [kindOk] at hk
    rename_i n
    refine ⟨_, _, natRepr n, rfl, rfl, rfl, ?_⟩
    show (if natRepr n = "" then Except.ok (Val.vUint 0)
      else (parseUintGo (natRepr n) 64).map .vUint) = Except.ok (.vUint n)
    rw [if_neg (natRepr_ne_empty n), parseUintGo_natRepr n 64 hk]
    rfl
  | tUintptr =>
    cases v <;> simp [kindOk] at hk
    rename_i n
    refine ⟨_, _, natRepr n, rfl, rfl, rfl, ?_⟩
    show (if natRepr n = "" then Except.ok (Val.vUint 0)
      else (parseUintGo (natRepr n) 64).map .vUint) = Except.ok (.vUint n)
    rw [if_neg (natRepr_ne_empty n), parseUintGo_natRepr n 64 hk]
    rfl
  | tUint8 =>
    cases v <;> simp [kindOk] at hk
    rename_i n
    refine ⟨_, _, natRepr n, rfl, rfl, rfl, ?_⟩
    show (if natRepr n = "" then Except.ok (Val.vUint 0)
      else (parseUintGo (natRepr n) 8).map .vUint) = Except.ok (.vUint n)
    rw [if_neg (natRepr_ne_empty n), parseUintGo_natRepr n 8 hk]
    rfl
  | tUint16 =>
    cases v <;> simp [kindOk] at hk
    rename_i n
    refine ⟨_, _, natRepr n, rfl, rfl, rfl, ?_⟩
    show (if natRepr n = "" then Except.ok (Val.vUint 0)
      else (parseUintGo (natRepr n) 16).map .vUint) = Except.ok (.vUint n)
    rw [if_neg (natRepr_ne_empty n), parseUintGo_natRepr n 16 hk]
    rfl
  | tUint32 =>
    cases v <;> simp [kindOk] at hk
    rename_i n
    refine ⟨_, _, natRepr n, rfl, rfl, rfl, ?_⟩
    show (if natRepr n = "" then Except.ok (Val.vUint 0)
      else (parseUintGo (natRepr n) 32).map .vUint) = Except.ok (.vUint n)
    rw [if_neg (natRepr_ne_empty n), parseUintGo_natRepr n 32 hk]
    rfl
  | tUint64 =>
    cases v <;> simp [kindOk] at hk
    rename_i n
    refine ⟨_, _, natRepr n, rfl, rfl, rfl, ?_⟩
    show (if natRepr n = "" then Except.ok (Val.vUint 0)
      else (parseUintGo (natRepr n) 64).map (fun m => Val.vUint (uint64ViaInt64 m))) =
        Except.ok (.vUint n)
    rw [if_neg (natRepr_ne_empty n), parseUintGo_natRepr n 64 hk]
    show Except.ok (Val.vUint (uint64ViaInt64 n)) = Except.ok (.vUint n)
    rw [uint64ViaInt64_id n hk]
  | tFloat32 => simp [isScalarT] at hs
  | tFloat64 => simp [isScalarT] at hs
  | tSlice elem => simp [isScalarT] at hs
  | tPtr elem => simp [isScalarT] at hs
  | tRequestPtr => simp [isScalarT] at hs
  | tURLPtr => simp [isScalarT] at hs
  | tURLValues => simp [isScalarT] at hs
  | tHeader => simp [isScalarT] at hs
  | tAny => simp [isScalarT] at hs
  | tStruct fields => simp [isScalarT] at hs

/-- C3 counterexample: "tRue" equals "true" up to case, and "true" is in the
truthy set, yet `ParseBool` rejects it — the recognition is by enumerated
case variants, not by case-insensitive comparison. -/
theorem parseBool_not_case_insensitive :
    ParseBool "tRue" = .error ("invalid bool value " ++ goQuote "tRue") ∧
    lowerStr "tRue" = "true" ∧ "true" ∈ trueStrings := by
  exact ⟨rfl, rfl, by decide⟩

/-- C3 (amended): `ParseBool` returns true exactly on the fourteen enumerated
truthy literals, false exactly on the fourteen enumerated falsy literals, and
fails with an "invalid bool value" error quoting the offending string on any
other input; the boolean field parser maps the empty string to false. -/
theorem parseBool_enumerated_variants (s : String) :
    (ParseBool s = .ok true ↔ s ∈ trueStrings) ∧
    (ParseBool s = .ok false ↔ s ∈ falseStrings) ∧
    (s ∉ trueStrings → s ∉ falseStrings →
      ParseBool s = .error ("invalid bool value " ++ goQuote s)) ∧
    (∀ p, pickParser .tBool = some p → p "" = .ok (.vBool false)) := by
  have hdisj : s ∈ falseStrings → s ∉ trueStrings := by
    intro h
    fin_cases h <;> decide
  refine ⟨⟨?_, ?_⟩, ⟨?_, ?_⟩, ?_, ?_⟩
  · intro h
    by_cases h1 : s ∈ trueStrings
    · exact h1
    · rw [ParseBool, if_neg h1] at h
      by_cases h2 : s ∈ falseStrings
      · rw [if_pos h2] at h; exact absurd h (by simp)
      · rw [if_neg h2] at h; exact absurd h (by simp)
  · intro h1
    rw [ParseBool, if_pos h1]
  · intro h
    by_cases h2 : s ∈ falseStrings
    · exact h2
    · by_cases h1 : s ∈ trueStrings
      · rw [ParseBool, if_pos h1] at h; exact absurd h (by simp)
      · rw [ParseBool, if_neg h1, if_neg h2] at h; exact absurd h (by simp)
  · intro h2
    rw [ParseBool, if_neg (fun h1 => hdisj h2 h1), if_pos h2]
  · intro h1 h2
    rw [ParseBool, if_neg h1, if_neg h2]
  · intro p hp
    cases hp
    rfl

/-- C3 witness: the amended theorem applied at "zz" (neither set) and at the
boolean field parser. -/
theorem parseBool_enumerated_variants_witness :
    ParseBool "zz" = .error ("invalid bool value " ++ goQuote "zz") ∧
    ("True" ∈ trueStrings ∧ ParseBool "True" = .ok true) := by
  refine ⟨(parseBool_enumerated_variants "zz").2.2.1 (by decide) (by decide), ?_, ?_⟩
  · decide
  · exact (parseBool_enumerated_variants "True").1.2 (by decide)

/-- C8: parsing the empty string yields the kind's zero value and never an
error: false for booleans, 0 for every signed and unsigned integer width and
for both float widths, the empty sequence for slices, and the absent (nil)
value for pointer wrappers. -/
theorem parse_empty_string_zero :
    ((pickParser .tBool).map (fun p => p "") = some (.ok (.vBool false))) ∧
    ((pickParser .tInt).map (fun p => p "") = some (.ok (.vInt 0))) ∧
    ((pickParser .tInt8).map (fun p => p "") = some (.ok (.vInt 0))) ∧
    ((pickParser .tInt16).map (fun p => p "") = some (.ok (.vInt 0))) ∧
    ((pickParser .tInt32).map (fun p => p "") = some (.ok (.vInt 0))) ∧
    ((pickParser .tInt64).map (fun p => p "") = some (.ok (.vInt 0))) ∧
    ((pickParser .tUint).map (fun p => p "") = some (.ok (.vUint 0))) ∧
    ((pickParser .tUintptr).map (fun p => p "") = some (.ok (.vUint 0))) ∧
    ((pickParser .tUint8).map (fun p => p "") = some (.ok (.vUint 0))) ∧
    ((pickParser .tUint16).map (fun p => p "") = some (.ok (.vUint 0))) ∧
    ((pickParser .tUint32).map (fun p => p "") = some (.ok (.vUint 0))) ∧
    ((pickParser .tUint64).map (fun p => p "") = some (.ok (.vUint 0))) ∧
    ((pickParser .tFloat32).map (fun p => p "") = some (.ok (.vFloat 0))) ∧
    ((pickParser .tFloat64).map (fun p => p "") = some (.ok (.vFloat 0))) ∧
    (∀ t, (pickParser (.tSlice t)).map (fun p => p "") = some (.ok (.vSlice []))) ∧
    (∀ t, (pickParser (.tPtr t)).map (fun p => p "") = some (.ok (.vPtr none))) :=
  ⟨rfl, rfl, rfl, rfl, rfl, rfl, rfl, rfl, rfl, rfl, rfl, rfl, rfl, rfl,
   fun _ => rfl, fun _ => rfl⟩

theorem dispatchPhase_json_disallowed (cb : Collab) (conf : Configuration) (r : Request)
    (ty : List GoField) (sm : StructMeta) (rec0 : Record)
    (hct : effectiveMIMEType r = jsonContentType) (hj : conf.AllowJSON = false) :
    dispatchPhase cb conf r ty sm rec0 =
      .error (.req ⟨415, "JSON input not allowed", none⟩) := by
  rw [dispatchPhase, hct]
  simp [hj]

/-- C2 counterexample: under a configuration with AllowForm = false (and
AllowMultipart = false), a POST with an URL-encoded body decodes successfully
instead of failing with HTTP 415 — the form/multipart acceptance flags are
never consulted by `DecodeVal`. -/
theorem decode_allowForm_not_enforced :
    DecodeVal cbTest
      { defaultConf with AllowForm := false, AllowMultipart := false }
      { method := "POST", urlStr := "", query := [],
        headers := [("Content-Type", "application/x-www-form-urlencoded")],
        cookies := [], body := "a=b" }
      [] [] recNil = .ok recNil := by
  rfl

/-- C2 (amended): only the JSON content-type family is gated by the
configuration: a non-GET/HEAD request whose media type is application/json
under AllowJSON = false fails with an HTTP 415 request error; AllowForm and
AllowMultipart are not enforced. -/
theorem decode_json_disallowed_415 (cb : Collab) (conf : Configuration) (r : Request)
    (pp : List (String × String)) (ty : List GoField) (sm : StructMeta) (rec0 : Record)
    (hsm : examineStruct conf ty = .ok sm)
    (hm : ¬ (r.method = "GET" ∨ r.method = "HEAD"))
    (hct : determineMIMEType r = jsonContentType)
    (hj : conf.AllowJSON = false) :
    DecodeVal cb conf r pp ty rec0 = .error (.req ⟨415, "JSON input not allowed", none⟩) := by
  have hd := dispatchPhase_json_disallowed cb conf r ty sm rec0
    (by rw [effectiveMIMEType, if_neg hm, hct]) hj
  simp only [DecodeVal, hsm, hd]

/-- C2 witness: the amended theorem applied to a POST JSON request under a
configuration that disallows JSON. -/
theorem decode_json_disallowed_415_witness :
    DecodeVal cbTest { defaultConf with AllowJSON := false }
      { method := "POST", urlStr := "", query := [],
        headers := [("Content-Type", "application/json")], cookies := [], body := "42" }
      [] [] recNil = .error (.req ⟨415, "JSON input not allowed", none⟩) :=
  decode_json_disallowed_415 cbTest _ _ [] [] _ recNil rfl (by decide) rfl rfl

/-! ### Association-list lemmas for the name-keyed field map -/

theorem mmLookup_amInsert_self {α : Type} (m : List (String × α)) (k : String) (v : α) :
    mmLookup (amInsert m k v) k = some v := by
  rw [amInsert]
  split
  · rename_i hsome
    rw [mmLookup, List.find?_map]
    have hpred : ((fun p => decide (p.1 = k)) ∘ fun q => if q.1 = k then (k, v) else q) =
        (fun q : String × α => decide (q.1 = k)) := by
      funext q
      by_cases hq : q.1 = k <;> simp [hq]
    rw [hpred]
    obtain ⟨p0, hp0⟩ := Option.isSome_iff_exists.1 hsome
    rw [hp0]
    have hk : p0.1 = k := by simpa using List.find?_some hp0
    simp [hk]
  · rename_i hnone
    rw [mmLookup, List.find?_append]
    have h0 : m.find? (fun q => decide (q.1 = k)) = none := by
      cases h : m.find? (fun q => decide (q.1 = k)) with
      | none => rfl
      | some p => rw [h] at hnone; simp at hnone
    rw [h0]
    simp

theorem mmLookup_amInsert_ne {α : Type} (m : List (String × α)) (k k' : String) (v : α)
    (h : k' ≠ k) : mmLookup (amInsert m k v) k' = mmLookup m k' := by
  rw [amInsert]
  split
  · rw [mmLookup, List.find?_map]
    have hpred : ((fun p => decide (p.1 = k')) ∘ fun q => if q.1 = k then (k, v) else q) =
        (fun q : String × α => decide (q.1 = k')) := by
      funext q
      by_cases hq : q.1 = k <;> simp [hq]
    rw [hpred, mmLookup]
    cases hf : m.find? (fun q => decide (q.1 = k')) with
    | none => simp
    | some p0 =>
      have hp0 : p0.1 = k' := by simpa using List.find?_some hf
      have hne : ¬ p0.1 = k := by rw [hp0]; exact h
      simp [hne]
  · rw [mmLookup, mmLookup, List.find?_append]
    have hsingle : [(k, v)].find? (fun q => decide (q.1 = k')) = none := by
      simp [Ne.symm h]
    rw [hsingle]
    cases hf : m.find? (fun q => decide (q.1 = k')) <;> simp

theorem amInsert_keys_nodup {α : Type} (m : List (String × α)) (k : String) (v : α)
    (h : (m.map Prod.fst).Nodup) : ((amInsert m k v).map Prod.fst).Nodup := by
  rw [amInsert]
  split
  · have hkeys : (m.map (fun q => if q.1 = k then (k, v) else q)).map Prod.fst =
        m.map Prod.fst := by
      rw [List.map_map]
      apply List.map_congr_left
      intro p _
      by_cases hpk : p.1 = k <;> simp [hpk]
    rw [hkeys]
    exact h
  · rename_i hnone
    have hk : k ∉ m.map Prod.fst := by
      intro hmem
      obtain ⟨p, hp, hpk⟩ := List.mem_map.1 hmem
      exact hnone (List.find?_isSome.2 ⟨p, hp, by simp [hpk]⟩)
    simp only [List.map_append, List.map_cons, List.map_nil]
    rw [List.nodup_append]
    exact ⟨h, List.nodup_singleton _,
      fun a ha hb => hk ((by simpa using hb : a = k) ▸ ha)⟩

theorem amInsert_entry_inv {α : Type} (P : String × α → Prop) (m : List (String × α))
    (k : String) (v : α) (hm : ∀ p ∈ m, P p) (hv : P (k, v)) :
    ∀ p ∈ amInsert m k v, P p := by
  intro p hp
  rw [amInsert] at hp
  split at hp
  · obtain ⟨q, hq, hqe⟩ := List.mem_map.1 hp
    by_cases hqk : q.1 = k
    · rw [if_pos hqk] at hqe
      rw [← hqe]
      exact hv
    · rw [if_neg hqk] at hqe
      rw [← hqe]
      exact hm q hq
  · rcases List.mem_append.1 hp with h | h
    · exact hm p h
    · have : p = (k, v) := by simpa using h
      rw [this]
      exact hv

/-! ### The NamedFields fold of mkStructMeta -/

theorem namedFold_lookup (fms : List FieldMeta) :
    ∀ (init : List (String × FieldMeta)) (k : String),
      mmLookup (fms.foldl
        (fun m fm => if fm.Source.IsNamed then amInsert m fm.name fm else m) init) k =
      ((fms.reverse.find?
        (fun fm => fm.Source.IsNamed && decide (fm.name = k))).or (mmLookup init k)) := by
  induction fms with
  | nil => intro init k; simp
  | cons fm rest ih =>
    intro init k
    rw [List.foldl_cons, ih, List.reverse_cons, List.find?_append, Option.or_assoc]
    congr 1
    by_cases hnamed : fm.Source.IsNamed
    · by_cases hname : fm.name = k
      · simp only [if_pos hnamed]
        have hf : List.find? (fun fm => fm.Source.IsNamed && decide (fm.name = k)) [fm] =
            some fm := by simp [List.find?, hnamed, hname]
        rw [hf, ← hname]
        simp [mmLookup_amInsert_self]
      · simp only [if_pos hnamed]
        have hf : List.find? (fun fm => fm.Source.IsNamed && decide (fm.name = k)) [fm] =
            none := by simp [List.find?, hname]
        rw [hf, mmLookup_amInsert_ne _ _ _ _ (fun h => hname h.symm)]
        simp
    · simp only [if_neg hnamed]
      have hf : List.find? (fun fm => fm.Source.IsNamed && decide (fm.name = k)) [fm] =
          none := by simp [List.find?, hnamed]
      rw [hf]
      simp

theorem namedFold_keys_nodup (fms : List FieldMeta) :
    ∀ init : List (String × FieldMeta), ((init.map Prod.fst).Nodup) →
      (((fms.foldl
        (fun m fm => if fm.Source.IsNamed then amInsert m fm.name fm else m) init).map
          Prod.fst).Nodup) := by
  induction fms with
  | nil => intro init h; simpa using h
  | cons fm rest ih =>
    intro init h
    rw [List.foldl_cons]
    apply ih
    by_cases hnamed : fm.Source.IsNamed
    · rw [if_pos hnamed]
      exact amInsert_keys_nodup _ _ _ h
    · rw [if_neg hnamed]
      exact h

theorem namedFold_name_eq_key (fms : List FieldMeta) :
    ∀ init : List (String × FieldMeta), (∀ p ∈ init, p.2.name = p.1) →
      ∀ p ∈ fms.foldl
        (fun m fm => if fm.Source.IsNamed then amInsert m fm.name fm else m) init,
        p.2.name = p.1 := by
  induction fms with
  | nil => intro init h; simpa using h
  | cons fm rest ih =>
    intro init h
    rw [List.foldl_cons]
    apply ih
    by_cases hnamed : fm.Source.IsNamed
    · rw [if_pos hnamed]
      exact amInsert_entry_inv (fun p => p.2.name = p.1) init fm.name fm h rfl
    · rw [if_neg hnamed]
      exact h

/-- Inversion of `examineStruct` into the emitted field list. -/
theorem examineStruct_eq (conf : Configuration) (ty : List GoField) (sm : StructMeta)
    (fms : List FieldMeta) (hsm : examineStruct conf ty = .ok sm)
    (hfms : examineFieldsAux conf ty [] 0 = .ok fms) : sm = mkStructMeta fms := by
  rw [examineStruct, hfms] at hsm
  exact (Except.ok.inj hsm).symm

/-- Every entry of a compiled schema's name map is keyed by its field's
name. -/
theorem namedFields_name_eq_key (conf : Configuration) (ty : List GoField)
    (sm : StructMeta) (hsm : examineStruct conf ty = .ok sm) :
    ∀ p ∈ sm.NamedFields, p.2.name = p.1 := by
  rw [examineStruct] at hsm
  cases hfms : examineFieldsAux conf ty [] 0 with
  | error e => rw [hfms] at hsm; exact absurd hsm (by simp)
  | ok fms =>
    rw [hfms] at hsm
    have : sm = mkStructMeta fms := (Except.ok.inj hsm).symm
    subst this
    exact namedFold_name_eq_key fms [] (by simp)

/-- C4 counterexample: `tyDupName` declares two named fields that share the
declared name "foo" (one header-sourced, one form-sourced); compilation
succeeds with no validation error, and the schema keeps only one entry — the
later, form-sourced binding — silently dropping the header binding. -/
theorem schema_duplicate_name_collapses :
    ∃ sm, examineStruct defaultConf tyDupName = .ok sm ∧
      sm.NamedFields.length = 1 ∧
      (mmLookup sm.NamedFields "foo").map (fun fm => fm.Source) = some .formSrc := by
  exact ⟨_, rfl, rfl, rfl⟩

/-- C4 (amended): the compiled name map is keyed by declared name only — its
keys are unique and every entry is keyed by its field's name — but there is
no uniqueness validation: when several named fields share a declared name
(even under different sources), the map assignment keeps only the last
emitted one, silently dropping the earlier bindings. -/
theorem schema_named_fields_last_wins (conf : Configuration) (ty : List GoField)
    (sm : StructMeta) (fms : List FieldMeta)
    (hsm : examineStruct conf ty = .ok sm)
    (hfms : examineFieldsAux conf ty [] 0 = .ok fms) :
    ((sm.NamedFields.map Prod.fst).Nodup) ∧
    (∀ p ∈ sm.NamedFields, p.2.name = p.1) ∧
    (∀ k, mmLookup sm.NamedFields k =
      fms.reverse.find? (fun fm => fm.Source.IsNamed && decide (fm.name = k))) := by
  have heq := examineStruct_eq conf ty sm fms hsm hfms
  subst heq
  refine ⟨namedFold_keys_nodup fms [] (by simp),
    namedFold_name_eq_key fms [] (by simp), ?_⟩
  intro k
  have := namedFold_lookup fms [] k
  simpa [mmLookup] using this

/-- C4 witness: the amended theorem applied to the duplicate-name struct —
the lookup of "foo" is the last emitted field with that name (the form
binding), and the keys are unique. -/
theorem schema_named_fields_last_wins_witness :
    ∃ sm fms, examineStruct defaultConf tyDupName = .ok sm ∧
      examineFieldsAux defaultConf tyDupName [] 0 = .ok fms ∧
      ((sm.NamedFields.map Prod.fst).Nodup ∧
        mmLookup sm.NamedFields "foo" =
          fms.reverse.find? (fun fm => fm.Source.IsNamed && decide (fm.name = "foo"))) := by
  refine ⟨_, _, rfl, rfl, ?_, ?_⟩
  · exact (schema_named_fields_last_wins defaultConf tyDupName _ _ rfl rfl).1
  · exact (schema_named_fields_last_wins defaultConf tyDupName _ _ rfl rfl).2.2 "foo"

/-! ### ReplaceAll and EncodeToPath -/

theorem replaceAllAux_not_contains (pat rep : List Char) :
    ∀ (fuel : Nat) (s : List Char), containsSub pat s = false →
      replaceAllAux pat rep fuel s = s := by
  intro fuel
  induction fuel with
  | zero => intro s _; rfl
  | succ fuel ih =>
    intro s hc
    match s with
    | [] => rfl
    | c :: rest =>
      rw [containsSub] at hc
      have h1 : pat.isPrefixOf (c :: rest) = false := by
        cases h : pat.isPrefixOf (c :: rest) <;> simp [h] at hc ⊢
      have h2 : containsSub pat rest = false := by
        cases h : containsSub pat rest <;> simp [h] at hc ⊢
      rw [replaceAllAux]
      rw [if_neg (by simp [h1])]
      rw [ih rest h2]

theorem replaceAllStr_not_contains (s pat rep : String)
    (hc : containsSub pat.toList s.toList = false) : replaceAllStr s pat rep = s := by
  rw [replaceAllStr]
  split
  · rfl
  · rw [replaceAllAux_not_contains pat.toList rep.toList _ _ hc]
    rfl

theorem encodePathLoop_ok_eq (rec : Record) (orig : String) :
    ∀ (l : List (String × FieldMeta)) (path res : String),
      encodePathLoop rec orig l path = .ok res → res = pathSubstFold rec l path := by
  intro l
  induction l with
  | nil =>
    intro path res h
    rw [encodePathLoop] at h
    rw [pathSubstFold]
    simpa using (Except.ok.inj h).symm
  | cons nfm rest ih =>
    intro path res h
    rw [encodePathLoop] at h
    rw [pathSubstFold, List.foldl_cons]
    split at h
    · rename_i hsrc
      rw [if_pos hsrc]
      split at h
      · rename_i e heq
        exact absurd h (by simp)
      · rename_i s heq
        rw [heq]
        split at h
        · exact absurd h (by simp)
        · have := ih _ _ h
          rw [pathSubstFold] at this
          exact this
    · rename_i hsrc
      rw [if_neg hsrc]
      have := ih _ _ h
      rw [pathSubstFold] at this
      exact this

theorem encodePathLoop_append (rec : Record) (orig : String) :
    ∀ (l1 l2 : List (String × FieldMeta)) (path : String),
      encodePathLoop rec orig (l1 ++ l2) path =
        (encodePathLoop rec orig l1 path).bind (encodePathLoop rec orig l2) := by
  intro l1
  induction l1 with
  | nil =>
    intro l2 path
    rfl
  | cons nfm rest ih =>
    intro l2 path
    rw [List.cons_append, encodePathLoop]
    conv_rhs => rw [encodePathLoop]
    split
    · split
      · rfl
      · split
        · rfl
        · exact ih _ _
    · exact ih _ _

/-- C9: `EncodeToPath` substitutes path fields by replacing every occurrence
of `:name` (on success the result is exactly the fold of `ReplaceAll` over
the path fields), and when the loop reaches a path field whose placeholder
does not occur in the path built so far — in particular a placeholder absent
from the template — it aborts with the fatal "not found" panic, not a request
error. -/
theorem encodeToPath_subst_or_abort (conf : Configuration) (ty : List GoField)
    (sm : StructMeta) (rec : Record) (tmpl : String)
    (hsm : examineStruct conf ty = .ok sm) :
    (∀ res, EncodeToPath conf ty rec tmpl = .ok res →
      res = pathSubstFold rec sm.NamedFields tmpl) ∧
    (∀ pre n fm rest' path' s,
      sm.NamedFields = pre ++ (n, fm) :: rest' →
      fm.Source = .pathSrc →
      encodePathLoop rec tmpl pre tmpl = .ok path' →
      getString rec fm = .ok s →
      containsSub (":" ++ fm.name).toList path'.toList = false →
      EncodeToPath conf ty rec tmpl =
        .error ((":" ++ fm.name) ++ " is not found in " ++ tmpl)) := by
  constructor
  · intro res h
    rw [EncodeToPath, hsm] at h
    exact encodePathLoop_ok_eq rec tmpl sm.NamedFields tmpl res h
  · intro pre n fm rest' path' s hdecomp hsrc hpre hgs hc
    rw [EncodeToPath, hsm]
    show encodePathLoop rec tmpl sm.NamedFields tmpl = _
    rw [hdecomp]
    rw [encodePathLoop_append rec tmpl pre ((n, fm) :: rest') tmpl, hpre]
    show encodePathLoop rec tmpl ((n, fm) :: rest') path' = _
    rw [encodePathLoop, if_pos hsrc, hgs]
    show (if replaceAllStr path' (":" ++ fm.name) s = path' then
        Except.error ((":" ++ fm.name) ++ " is not found in " ++ tmpl)
      else encodePathLoop rec tmpl rest' (replaceAllStr path' (":" ++ fm.name) s)) = _
    rw [if_pos (replaceAllStr_not_contains path' (":" ++ fm.name) s hc)]

/-- C9 witness: substituting the single path field `id` = 42 into
"/items/:id" yields "/items/42", and encoding against a template without the
placeholder aborts with the ":id is not found" panic. -/
theorem encodeToPath_subst_or_abort_witness :
    ∃ sm, examineStruct defaultConf tyPathId = .ok sm ∧
      (EncodeToPath defaultConf tyPathId (fun _ => .vInt 42) "/items/:id" = .ok "/items/42" ∧
        "/items/42" = pathSubstFold (fun _ => .vInt 42) sm.NamedFields "/items/:id") ∧
      EncodeToPath defaultConf tyPathId (fun _ => .vInt 42) "/items" =
        .error (":id is not found in /items") := by
  refine ⟨_, rfl, ⟨rfl, ?_⟩, ?_⟩
  · exact (encodeToPath_subst_or_abort defaultConf tyPathId _ (fun _ => .vInt 42)
      "/items/:id" rfl).1 "/items/42" rfl
  · exact (encodeToPath_subst_or_abort defaultConf tyPathId _ (fun _ => .vInt 42)
      "/items" rfl).2 [] "id"
      ⟨[0], "id", .tInt, .pathSrc, false, false, false⟩ [] "/items" "42"
      rfl rfl rfl rfl rfl

/-! ### Phase lemmas for the decode pipeline -/

theorem mmLookup_eq_some_mem {α : Type} {m : List (String × α)} {k : String} {v : α}
    (h : mmLookup m k = some v) : (k, v) ∈ m := by
  rw [mmLookup] at h
  cases hf : m.find? (fun p => decide (p.1 = k)) with
  | none => rw [hf] at h; simp at h
  | some p =>
    rw [hf] at h
    have hp1 : p.1 = k := by simpa using List.find?_some hf
    have hp2 : p.2 = v := by simpa using h
    have hmem := List.mem_of_find?_eq_some hf
    have : (k, v) = p := by
      rw [← hp1, ← hp2]
    rw [this]
    exact hmem

theorem setVal_skip (rec : Record) (sm : StructMeta) (k v : String)
    (h : ∀ fm, mmLookup sm.NamedFields k = some fm → fm.Source ≠ .formSrc) :
    setVal rec sm .formSrc k v = .ok rec := by
  rw [setVal]
  cases hl : mmLookup sm.NamedFields k with
  | none => simp
  | some fm =>
    have hne := h fm hl
    simp [hne]

theorem formKeyStep_skip (sm : StructMeta) (k : String)
    (h : ∀ fm, mmLookup sm.NamedFields k = some fm → fm.Source ≠ .formSrc) :
    ∀ (vs : List String) (rec : Record),
      vs.foldlM (formKeyStep sm k) rec = .ok rec := by
  intro vs
  induction vs with
  | nil => intro rec; rfl
  | cons v rest ih =>
    intro rec
    rw [List.foldlM_cons]
    rw [show formKeyStep sm k rec v = .ok rec from setVal_skip rec sm k v h]
    show rest.foldlM (formKeyStep sm k) rec = .ok rec
    exact ih rec

theorem formPhase_skip_all (sm : StructMeta)
    (h : ∀ p ∈ sm.NamedFields, p.2.Source ≠ .formSrc) :
    ∀ (form : List (String × List String)) (rec : Record),
      formPhase sm form rec = .ok rec := by
  intro form
  induction form with
  | nil => intro rec; rfl
  | cons kv rest ih =>
    intro rec
    rw [formPhase, List.foldlM_cons]
    have hstep : formEntryStep sm rec kv = .ok rec := by
      rw [formEntryStep]
      apply formKeyStep_skip
      intro fm hl
      exact h (kv.1, fm) (mmLookup_eq_some_mem hl)
    rw [hstep]
    show formPhase sm rest rec = .ok rec
    exact ih rec

theorem parseJSONBody_no_bodyfields (cb : Collab) (conf : Configuration)
    (ty : List GoField) (sm : StructMeta) (r : Request) (src : BodySrc) (st : DState)
    (h1 : sm.HasBodyForm = false) (h2 : sm.HasFullBody = false) :
    parseJSONBody cb conf ty sm r src st = .ok { st with isBodyParsed := true } := by
  rw [parseJSONBody]
  simp [h1, h2]

theorem fallbackPhase_no_bodyfields (cb : Collab) (conf : Configuration)
    (ty : List GoField) (sm : StructMeta) (r : Request) (st : DState)
    (h1 : sm.HasBodyForm = false) (h2 : sm.HasFullBody = false) :
    fallbackPhase cb conf ty sm r st = .ok st ∨
      fallbackPhase cb conf ty sm r st = .ok { st with isBodyParsed := true } := by
  rw [fallbackPhase]
  split
  · split
    · right
      exact parseJSONBody_no_bodyfields cb conf ty sm r _ st h1 h2
    · left; rfl
  · left; rfl

theorem examineStruct_unnamed_empty_flags (conf : Configuration) (ty : List GoField)
    (sm : StructMeta) (hsm : examineStruct conf ty = .ok sm)
    (hu : sm.UnnamedFields = []) :
    sm.HasRawBody = false ∧ sm.HasFullBody = false := by
  rw [examineStruct] at hsm
  cases hfms : examineFieldsAux conf ty [] 0 with
  | error e => rw [hfms] at hsm; exact absurd hsm (by simp)
  | ok fms =>
    rw [hfms] at hsm
    have heq : sm = mkStructMeta fms := (Except.ok.inj hsm).symm
    subst heq
    have hfilter : fms.filter (fun fm => !fm.Source.IsNamed) = [] := hu
    have hall : ∀ fm ∈ fms, fm.Source.IsNamed = true := by
      intro fm hfm
      by_contra hn
      have hmem : fm ∈ fms.filter (fun fm => !fm.Source.IsNamed) :=
        List.mem_filter.2 ⟨hfm, by simp [Bool.not_eq_true] at hn ⊢; exact hn⟩
      rw [hfilter] at hmem
      simp at hmem
    constructor
    · show fms.any (fun fm => decide (fm.Source = .rawBodySrc)) = false
      rw [List.any_eq_false]
      intro fm hfm
      simp only [decide_eq_true_eq]
      intro hsrc
      have := hall fm hfm
      rw [hsrc] at this
      simp [Source.IsNamed] at this
    · show fms.any (fun fm => decide (fm.Source = .fullBodySrc)) = false
      rw [List.any_eq_false]
      intro fm hfm
      simp only [decide_eq_true_eq]
      intro hsrc
      have := hall fm hfm
      rw [hsrc] at this
      simp [Source.IsNamed] at this

theorem dispatchPhase_no_ct (cb : Collab) (conf : Configuration) (r : Request)
    (ty : List GoField) (sm : StructMeta) (rec0 : Record)
    (hmt : effectiveMIMEType r = "")
    (hbuf : (sm.HasRawBody || (sm.HasBodyForm && sm.HasFullBody)) = false) :
    dispatchPhase cb conf r ty sm rec0 =
      .ok ⟨r.query, rec0, none, false, r.body, ""⟩ := by
  rw [dispatchPhase, hmt, hbuf]
  simp [jsonContentType]

theorem httpPrefix_ne_empty (s : String) : "HTTP " ++ s ≠ "" := by
  intro h
  have hd := congrArg String.data h
  rw [String.data_append] at hd
  simp at hd

theorem append_ne_empty_left (a b : String) (h : a ≠ "") : a ++ b ≠ "" := by
  intro he
  apply h
  have hd := congrArg String.data he
  rw [String.data_append] at hd
  obtain ⟨h1, -⟩ := List.append_eq_nil.1 hd
  cases a with
  | mk l =>
    rw [show l = [] from h1]

/-- C6: a required header-sourced field named X-Foo absent from the request
(no X-Foo header) fails with the request error whose rendering is exactly
"HTTP 400 missing header X-Foo"; the same field marked optional decodes
successfully with the destination left untouched at that field (its zero
value); rendering concatenates the HTTP code, the message and the cause,
omitting each empty segment. -/
theorem decode_missing_header (cb : Collab) (conf : Configuration) (r : Request)
    (pp : List (String × String)) (ty : List GoField) (sm : StructMeta)
    (fm : FieldMeta) (rec0 : Record)
    (hsm : examineStruct conf ty = .ok sm)
    (hn : sm.NamedFields = [("X-Foo", fm)])
    (hsrc : fm.Source = .headerSrc)
    (hu : sm.UnnamedFields = [])
    (hbf : sm.HasBodyForm = false)
    (hh : headerGet r.headers "X-Foo" = "")
    (hmt : effectiveMIMEType r = "") :
    (fm.Optional = false →
      DecodeVal cb conf r pp ty rec0 =
        .error (.req ⟨400, "missing header X-Foo", none⟩) ∧
      HError.render ⟨400, "missing header X-Foo", none⟩ = "HTTP 400 missing header X-Foo") ∧
    (fm.Optional = true → DecodeVal cb conf r pp ty rec0 = .ok rec0) ∧
    (∀ (c : Nat) (m : String),
      (c ≠ 0 → m ≠ "" → HError.render ⟨c, m, none⟩ = "HTTP " ++ natRepr c ++ " " ++ m) ∧
      (c ≠ 0 → m ≠ "" → ∀ t, HError.render ⟨c, m, some t⟩ =
        "HTTP " ++ natRepr c ++ " " ++ m ++ ": " ++ t) ∧
      (HError.render ⟨0, m, none⟩ = m) ∧
      (∀ t, HError.render ⟨0, "", some t⟩ = t)) := by
  obtain ⟨hrb, hfb⟩ := examineStruct_unnamed_empty_flags conf ty sm hsm hu
  have hname : fm.name = "X-Foo" :=
    namedFields_name_eq_key conf ty sm hsm ("X-Foo", fm) (by rw [hn]; simp)
  have hbuf : (sm.HasRawBody || (sm.HasBodyForm && sm.HasFullBody)) = false := by
    rw [hrb, hbf]
    rfl
  have hd := dispatchPhase_no_ct cb conf r ty sm rec0 hmt hbuf
  have hform : formPhase sm r.query rec0 = .ok rec0 := by
    apply formPhase_skip_all
    intro p hp
    rw [hn] at hp
    have hpe : p = ("X-Foo", fm) := by simpa using hp
    rw [hpe]
    show fm.Source ≠ .formSrc
    rw [hsrc]
    simp
  have hun : unnamedPhase r sm "" none rec0 = .ok rec0 := by
    rw [unnamedPhase, hu]
    rfl
  refine ⟨?_, ?_, ?_⟩
  · intro hopt
    have hstep : namedStep r pp rec0 ("X-Foo", fm) =
        .error (.req ⟨400, "missing header X-Foo", none⟩) := by
      simp [namedStep, hsrc, hname, hh, hopt]
    have hnamed : namedPhase r pp sm rec0 =
        .error (.req ⟨400, "missing header X-Foo", none⟩) := by
      rw [namedPhase, hn, List.foldlM_cons, hstep]
      rfl
    refine ⟨?_, rfl⟩
    rcases fallbackPhase_no_bodyfields cb conf ty sm r
      ⟨r.query, rec0, none, false, r.body, ""⟩ hbf hfb with hf | hf
    · simp only [DecodeVal, hsm, hd, hform, hf, hnamed]
    · simp only [DecodeVal, hsm, hd, hform, hf, hnamed]
  · intro hopt
    have hstep : namedStep r pp rec0 ("X-Foo", fm) = .ok rec0 := by
      simp [namedStep, hsrc, hname, hh, hopt]
    have hnamed : namedPhase r pp sm rec0 = .ok rec0 := by
      rw [namedPhase, hn, List.foldlM_cons, hstep]
      rfl
    rcases fallbackPhase_no_bodyfields cb conf ty sm r
      ⟨r.query, rec0, none, false, r.body, ""⟩ hbf hfb with hf | hf
    · simp only [DecodeVal, hsm, hd, hform, hf, hnamed]
      exact hun
    · simp only [DecodeVal, hsm, hd, hform, hf, hnamed]
      exact hun
  · intro c m
    refine ⟨?_, ?_, ?_, ?_⟩
    · intro hc hm
      simp only [HError.render]
      rw [if_pos hc, if_pos hm, if_pos (httpPrefix_ne_empty (natRepr c))]
    · intro hc hm t
      simp only [HError.render]
      rw [if_pos hc, if_pos hm, if_pos (httpPrefix_ne_empty (natRepr c)),
        if_pos (append_ne_empty_left _ m
          (append_ne_empty_left _ " " (httpPrefix_ne_empty (natRepr c))))]
    · simp only [HError.render]
      rw [if_neg (by simp : ¬ (0 : Nat) ≠ 0)]
      by_cases hm : m ≠ ""
      · rw [if_pos hm, if_neg (by simp : ¬ ("" : String) ≠ "")]
        exact rfl
      · rw [if_neg hm]
        simp at hm
        exact hm.symm
    · intro t
      simp only [HError.render]
      rw [if_neg (by simp : ¬ (0 : Nat) ≠ 0),
        if_neg (by simp : ¬ ("" : String) ≠ ""),
        if_neg (by simp : ¬ ("" : String) ≠ "")]
      exact rfl

/-- C6 witness: the theorem applied to the header-required and
header-optional example structs and a request with no headers. -/
theorem decode_missing_header_witness :
    (DecodeVal cbTest defaultConf
        { method := "POST", urlStr := "", query := [], headers := [],
          cookies := [], body := "" }
        [] tyHeaderReq recNil = .error (.req ⟨400, "missing header X-Foo", none⟩) ∧
      HError.render ⟨400, "missing header X-Foo", none⟩ = "HTTP 400 missing header X-Foo") ∧
    DecodeVal cbTest defaultConf
        { method := "POST", urlStr := "", query := [], headers := [],
          cookies := [], body := "" }
        [] tyHeaderOpt recNil = .ok recNil := by
  refine ⟨?_, ?_⟩
  · exact (decode_missing_header cbTest defaultConf
      { method := "POST", urlStr := "", query := [], headers := [],
        cookies := [], body := "" } [] tyHeaderReq
      ⟨[("X-Foo", ⟨[0], "X-Foo", .tString, .headerSrc, false, false, false⟩)],
        [], false, false, false⟩
      ⟨[0], "X-Foo", .tString, .headerSrc, false, false, false⟩ recNil
      rfl rfl rfl rfl rfl rfl rfl).1 rfl
  · exact (decode_missing_header cbTest defaultConf
      { method := "POST", urlStr := "", query := [], headers := [],
        cookies := [], body := "" } [] tyHeaderOpt
      ⟨[("X-Foo", ⟨[0], "X-Foo", .tString, .headerSrc, true, false, false⟩)],
        [], false, false, false⟩
      ⟨[0], "X-Foo", .tString, .headerSrc, true, false, false⟩ recNil
      rfl rfl rfl rfl rfl rfl rfl).2.1 rfl

/-! ### Form-loop lemmas for repeated values -/

theorem except_map_ok {α β γ : Type} (f : α → β) (e : Except γ α) (v : β)
    (h : e.map f = .ok v) : ∃ a, e = .ok a ∧ v = f a := by
  cases e with
  | error _ => simp [Except.map] at h
  | ok a => exact ⟨a, rfl, by simpa [Except.map] using h.symm⟩

/-- A value produced by a type's parser converts to that type unchanged
(the `CanConvert` check of `setFieldVal` always passes for parser output). -/
theorem pickParser_result_convert (t : GoType) (p : String → Except String Val)
    (hp : pickParser t = some p) (s : String) (v : Val) (hps : p s = .ok v) :
    convertVal v t = some v := by
  cases t with
  | tString => cases hp; cases hps; rfl
  | tBool =>
    cases hp
    beta_reduce at hps
    split at hps
    · cases hps; rfl
    · split at hps
      · cases hps
      · cases hps; rfl
  | tInt =>
    cases hp
    beta_reduce at hps
    split at hps
    · cases hps; rfl
    · obtain ⟨a, -, hv⟩ := except_map_ok _ _ _ hps
      subst hv; rfl
  | tInt8 =>
    cases hp
    beta_reduce at hps
    split at hps
    · cases hps; rfl
    · obtain ⟨a, -, hv⟩ := except_map_ok _ _ _ hps
      subst hv; rfl
  | tInt16 =>
    cases hp
    beta_reduce at hps
    split at hps
    · cases hps; rfl
    · obtain ⟨a, -, hv⟩ := except_map_ok _ _ _ hps
      subst hv; rfl
  | tInt32 =>
    cases hp
    beta_reduce at hps
    split at hps
    · cases hps; rfl
    · obtain ⟨a, -, hv⟩ := except_map_ok _ _ _ hps
      subst hv; rfl
  | tInt64 =>
    cases hp
    beta_reduce at hps
    split at hps
    · cases hps; rfl
    · obtain ⟨a, -, hv⟩ := except_map_ok _ _ _ hps
      subst hv; rfl
  | tUint =>
    cases hp
    beta_reduce at hps
    split at hps
    · cases hps; rfl
    · obtain ⟨a, -, hv⟩ := except_map_ok _ _ _ hps
      subst hv; rfl
  | tUintptr =>
    cases hp
    beta_reduce at hps
    split at hps
    · cases hps; rfl
    · obtain ⟨a, -, hv⟩ := except_map_ok _ _ _ hps
      subst hv; rfl
  | tUint8 =>
    cases hp
    beta_reduce at hps
    split at hps
    · cases hps; rfl
    · obtain ⟨a, -, hv⟩ := except_map_ok _ _ _ hps
      subst hv; rfl
  | tUint16 =>
    cases hp
    beta_reduce at hps
    split at hps
    · cases hps; rfl
    · obtain ⟨a, -, hv⟩ := except_map_ok _ _ _ hps
      subst hv; rfl
  | tUint32 =>
    cases hp
    beta_reduce at hps
    split at hps
    · cases hps; rfl
    · obtain ⟨a, -, hv⟩ := except_map_ok _ _ _ hps
      subst hv; rfl
  | tUint64 =>
    cases hp
    beta_reduce at hps
    split at hps
    · cases hps; rfl
    · obtain ⟨a, -, hv⟩ := except_map_ok _ _ _ hps
      subst hv; rfl
  | tFloat32 =>
    cases hp
    beta_reduce at hps
    split at hps
    · cases hps; rfl
    · obtain ⟨a, -, hv⟩ := except_map_ok _ _ _ hps
      subst hv; rfl
  | tFloat64 =>
    cases hp
    beta_reduce at hps
    split at hps
    · cases hps; rfl
    · obtain ⟨a, -, hv⟩ := except_map_ok _ _ _ hps
      subst hv; rfl
  | tSlice elem =>
    cases hp
    beta_reduce at hps
    split at hps
    · cases hps; rfl
    · split at hps
      · cases hps
      · obtain ⟨a, -, hv⟩ := except_map_ok _ _ _ hps
        subst hv; rfl
  | tPtr elem =>
    cases hp
    beta_reduce at hps
    split at hps
    · cases hps; rfl
    · split at hps
      · cases hps
      · split at hps
        · cases hps
        · cases hps; rfl
  | tRequestPtr => cases hp
  | tURLPtr => cases hp
  | tURLValues => cases hp
  | tHeader => cases hp
  | tAny => cases hp
  | tStruct fields => cases hp

theorem formKeyStep_all_ok (sm : StructMeta) (k : String) (fm : FieldMeta)
    (p : String → Except String Val)
    (hl : mmLookup sm.NamedFields k = some fm)
    (hsrc : fm.Source = .formSrc)
    (hp : pickParser fm.typ = some p) :
    ∀ (vs : List String) (rec : Record), (∀ v ∈ vs, (p v).isOk = true) →
      ∃ rec', vs.foldlM (formKeyStep sm k) rec = .ok rec' ∧
        (∀ i, i ≠ fm.fieldIdx → rec' i = rec i) ∧
        (∀ last w, vs.getLast? = some last → p last = .ok w →
          rec' fm.fieldIdx = w) ∧
        (vs = [] → rec' = rec) := by
  intro vs
  induction vs with
  | nil =>
    intro rec _
    exact ⟨rec, rfl, fun i _ => rfl, fun last w hlast => absurd hlast (by simp),
      fun _ => rfl⟩
  | cons v rest ih =>
    intro rec hok
    have hv : (p v).isOk = true := hok v (by simp)
    obtain ⟨w0, hw0⟩ : ∃ w0, p v = .ok w0 := by
      cases hpv : p v with
      | error e => rw [hpv] at hv; simp [Except.isOk, Except.toBool] at hv
      | ok w0 => exact ⟨w0, rfl⟩
    have hstep : formKeyStep sm k rec v = .ok (Record.set rec fm.fieldIdx w0) := by
      rw [formKeyStep, setVal, hl]
      show (if fm.Source = .formSrc then setField rec fm v
        else if Source.formSrc ≠ Source.formSrc then
          Except.error (.fatal ("no input field for param " ++ k))
        else .ok rec) = _
      rw [if_pos hsrc, setField, hp]
      show (match p v with
        | Except.error e =>
          Except.error (DError.req ⟨400, "", some ("invalid " ++ fm.name ++ ": " ++ e)⟩)
        | Except.ok w => setFieldVal rec fm w) = _
      rw [hw0]
      show setFieldVal rec fm w0 = _
      rw [setFieldVal, pickParser_result_convert fm.typ p hp v w0 hw0]
    obtain ⟨rec', hfold, hother, hlast, hnil⟩ :=
      ih (Record.set rec fm.fieldIdx w0) (fun v hv => hok v (by simp [hv]))
    refine ⟨rec', ?_, ?_, ?_, ?_⟩
    · rw [List.foldlM_cons, hstep]
      exact hfold
    · intro i hi
      rw [hother i hi, Record.set, if_neg hi]
    · intro last w hl2 hw
      cases rest with
      | nil =>
        have hlv : v = last := by simpa using hl2
        subst hlv
        have hww : w = w0 := by
          rw [hw0] at hw
          exact (Except.ok.inj hw).symm
        subst hww
        rw [hnil rfl, Record.set, if_pos rfl]
      | cons v2 rest2 =>
        apply hlast last w _ hw
        simpa using hl2
    · intro h
      exact absurd h (by simp)

theorem formKeyStep_first_error (sm : StructMeta) (k : String) (fm : FieldMeta)
    (p : String → Except String Val)
    (hl : mmLookup sm.NamedFields k = some fm)
    (hsrc : fm.Source = .formSrc)
    (hp : pickParser fm.typ = some p) :
    ∀ (pre : List String) (bad : String) (rest : List String) (rec : Record)
      (msg : String),
      (∀ v ∈ pre, (p v).isOk = true) → p bad = .error msg →
      (pre ++ bad :: rest).foldlM (formKeyStep sm k) rec =
        .error (.req ⟨400, "", some ("invalid " ++ fm.name ++ ": " ++ msg)⟩) := by
  intro pre
  induction pre with
  | nil =>
    intro bad rest rec msg _ hbad
    rw [List.nil_append, List.foldlM_cons]
    have hstep : formKeyStep sm k rec bad =
        .error (.req ⟨400, "", some ("invalid " ++ fm.name ++ ": " ++ msg)⟩) := by
      rw [formKeyStep, setVal, hl]
      show (if fm.Source = .formSrc then setField rec fm bad
        else if Source.formSrc ≠ Source.formSrc then
          Except.error (.fatal ("no input field for param " ++ k))
        else .ok rec) = _
      rw [if_pos hsrc, setField, hp]
      show (match p bad with
        | Except.error e =>
          Except.error (DError.req ⟨400, "", some ("invalid " ++ fm.name ++ ": " ++ e)⟩)
        | Except.ok w => setFieldVal rec fm w) = _
      rw [hbad]
    rw [hstep]
    rfl
  | cons v pre' ih =>
    intro bad rest rec msg hok hbad
    have hv : (p v).isOk = true := hok v (by simp)
    obtain ⟨w0, hw0⟩ : ∃ w0, p v = .ok w0 := by
      cases hpv : p v with
      | error e => rw [hpv] at hv; simp [Except.isOk, Except.toBool] at hv
      | ok w0 => exact ⟨w0, rfl⟩
    have hstep : formKeyStep sm k rec v = .ok (Record.set rec fm.fieldIdx w0) := by
      rw [formKeyStep, setVal, hl]
      show (if fm.Source = .formSrc then setField rec fm v
        else if Source.formSrc ≠ Source.formSrc then
          Except.error (.fatal ("no input field for param " ++ k))
        else .ok rec) = _
      rw [if_pos hsrc, setField, hp]
      show (match p v with
        | Except.error e =>
          Except.error (DError.req ⟨400, "", some ("invalid " ++ fm.name ++ ": " ++ e)⟩)
        | Except.ok w => setFieldVal rec fm w) = _
      rw [hw0]
      show setFieldVal rec fm w0 = _
      rw [setFieldVal, pickParser_result_convert fm.typ p hp v w0 hw0]
    rw [List.cons_append, List.foldlM_cons, hstep]
    exact ih bad rest _ msg (fun v hv => hok v (by simp [hv])) hbad

theorem fallbackPhase_param_empty (cb : Collab) (conf : Configuration)
    (ty : List GoField) (sm : StructMeta) (r : Request) (st : DState)
    (h : conf.JSONBodyFallbackParam = "") :
    fallbackPhase cb conf ty sm r st = .ok st := by
  rw [fallbackPhase, h]
  simp

/-- C10: when the merged form/query multimap holds several values under a
scalar-typed named form field's key, decode parses and assigns them in the
multimap's per-key order: the first value that fails to parse aborts with an
HTTP 400 request error naming the field, and when all values parse the
field's final value is the parsed last value (earlier values are overwritten,
never collected into a sequence). -/
theorem decode_repeated_values_last_wins (cb : Collab) (conf : Configuration)
    (r : Request) (pp : List (String × String)) (ty : List GoField)
    (sm : StructMeta) (fm : FieldMeta) (k : String)
    (p : String → Except String Val) (vs : List String) (rec0 : Record)
    (hsm : examineStruct conf ty = .ok sm)
    (hn : sm.NamedFields = [(k, fm)])
    (hsrc : fm.Source = .formSrc)
    (hp : pickParser fm.typ = some p)
    (hu : sm.UnnamedFields = [])
    (hfp : conf.JSONBodyFallbackParam = "")
    (hmt : effectiveMIMEType r = "")
    (hq : r.query = [(k, vs)]) :
    (∀ pre bad rest msg, vs = pre ++ bad :: rest →
      (∀ v ∈ pre, (p v).isOk = true) → p bad = .error msg →
      DecodeVal cb conf r pp ty rec0 =
        .error (.req ⟨400, "", some ("invalid " ++ k ++ ": " ++ msg)⟩)) ∧
    (∀ last w, (∀ v ∈ vs, (p v).isOk = true) → vs.getLast? = some last →
      p last = .ok w →
      ∃ rec1, DecodeVal cb conf r pp ty rec0 = .ok rec1 ∧ rec1 fm.fieldIdx = w) := by
  obtain ⟨hrb, hfb⟩ := examineStruct_unnamed_empty_flags conf ty sm hsm hu
  have hname : fm.name = k :=
    namedFields_name_eq_key conf ty sm hsm (k, fm) (by rw [hn]; simp)
  have hbuf : (sm.HasRawBody || (sm.HasBodyForm && sm.HasFullBody)) = false := by
    rw [hrb, hfb]
    simp
  have hd := dispatchPhase_no_ct cb conf r ty sm rec0 hmt hbuf
  rw [hq] at hd
  have hl : mmLookup sm.NamedFields k = some fm := by
    rw [hn]
    simp [mmLookup, List.find?]
  have hnamed : ∀ rec : Record, namedPhase r pp sm rec = .ok rec := by
    intro rec
    rw [namedPhase, hn, List.foldlM_cons]
    have hstep : namedStep r pp rec (k, fm) = .ok rec := by
      simp [namedStep, hsrc]
    rw [hstep]
    rfl
  have hun : ∀ rec : Record, unnamedPhase r sm "" none rec = .ok rec := by
    intro rec
    rw [unnamedPhase, hu]
    rfl
  constructor
  · intro pre bad rest msg hvs hok hbad
    have herr := formKeyStep_first_error sm k fm p hl hsrc hp pre bad rest rec0 msg hok hbad
    have hform : formPhase sm [(k, vs)] rec0 =
        .error (.req ⟨400, "", some ("invalid " ++ k ++ ": " ++ msg)⟩) := by
      rw [formPhase, List.foldlM_cons]
      have hentry : formEntryStep sm rec0 (k, vs) =
          .error (.req ⟨400, "", some ("invalid " ++ k ++ ": " ++ msg)⟩) := by
        rw [formEntryStep]
        show vs.foldlM (formKeyStep sm k) rec0 = _
        rw [hvs, herr, hname]
      rw [hentry]
      rfl
    simp only [DecodeVal, hsm, hd, hform]
  · intro last w hok hlast hW
    obtain ⟨rec1, hfold, hother, hlastprop, hnil⟩ :=
      formKeyStep_all_ok sm k fm p hl hsrc hp vs rec0 hok
    have hform : formPhase sm [(k, vs)] rec0 = .ok rec1 := by
      rw [formPhase, List.foldlM_cons]
      have hentry : formEntryStep sm rec0 (k, vs) = .ok rec1 := by
        rw [formEntryStep]
        exact hfold
      rw [hentry]
      rfl
    refine ⟨rec1, ?_, hlastprop last w hlast hW⟩
    have hfall := fallbackPhase_param_empty cb conf ty sm r
      ⟨[(k, vs)], rec1, none, false, r.body, ""⟩ hfp
    simp only [DecodeVal, hsm, hd, hform, hfall, hnamed rec1]
    exact hun rec1

/-- C10 witness: for an int field `foo`, `?foo=1&foo=2` decodes to 2 (last
wins), and `?foo=1&foo=x&foo=3` aborts at "x" with the 400 request error
naming the field. -/
theorem decode_repeated_values_last_wins_witness :
    (∃ rec1, DecodeVal cbTest { defaultConf with JSONBodyFallbackParam := "" }
        { method := "GET", urlStr := "", query := [("foo", ["1", "2"])],
          headers := [], cookies := [], body := "" }
        [] tyFooInt recNil = .ok rec1 ∧ rec1 [0] = .vInt 2) ∧
    DecodeVal cbTest { defaultConf with JSONBodyFallbackParam := "" }
        { method := "GET", urlStr := "", query := [("foo", ["1", "x", "3"])],
          headers := [], cookies := [], body := "" }
        [] tyFooInt recNil =
      .error (.req ⟨400, "",
        some ("invalid foo: strconv.ParseInt: parsing x: invalid syntax")⟩) := by
  constructor
  · exact (decode_repeated_values_last_wins cbTest
      { defaultConf with JSONBodyFallbackParam := "" }
      { method := "GET", urlStr := "", query := [("foo", ["1", "2"])],
        headers := [], cookies := [], body := "" }
      [] tyFooInt
      ⟨[("foo", ⟨[0], "foo", .tInt, .formSrc, false, false, false⟩)], [],
        false, false, true⟩
      ⟨[0], "foo", .tInt, .formSrc, false, false, false⟩ "foo" _ ["1", "2"] recNil
      rfl rfl rfl rfl rfl rfl rfl rfl).2 "2" (.vInt 2) (by decide) rfl rfl
  · exact (decode_repeated_values_last_wins cbTest
      { defaultConf with JSONBodyFallbackParam := "" }
      { method := "GET", urlStr := "", query := [("foo", ["1", "x", "3"])],
        headers := [], cookies := [], body := "" }
      [] tyFooInt
      ⟨[("foo", ⟨[0], "foo", .tInt, .formSrc, false, false, false⟩)], [],
        false, false, true⟩
      ⟨[0], "foo", .tInt, .formSrc, false, false, false⟩ "foo" _ ["1", "x", "3"] recNil
      rfl rfl rfl rfl rfl rfl rfl rfl).1 ["1"] "x" ["3"]
      "strconv.ParseInt: parsing x: invalid syntax" rfl (by decide) rfl

/-! ### Fallback-phase lemmas (C5) -/

/-- A field emitted into the unnamed list witnesses the corresponding
schema flag. -/
theorem examineStruct_unnamed_mem (conf : Configuration) (ty : List GoField)
    (sm : StructMeta) (fm : FieldMeta) (hsm : examineStruct conf ty = .ok sm)
    (hmem : fm ∈ sm.UnnamedFields) :
    (fm.Source = .rawBodySrc → sm.HasRawBody = true) ∧
    (fm.Source = .fullBodySrc → sm.HasFullBody = true) := by
  rw [examineStruct] at hsm
  cases hfms : examineFieldsAux conf ty [] 0 with
  | error e => rw [hfms] at hsm; exact absurd hsm (by simp)
  | ok fms =>
    rw [hfms] at hsm
    have heq : sm = mkStructMeta fms := (Except.ok.inj hsm).symm
    subst heq
    have hmem2 : fm ∈ fms.filter (fun g => !g.Source.IsNamed) := hmem
    have hf : fm ∈ fms := List.mem_of_mem_filter hmem2
    constructor
    · intro hsrc
      show fms.any (fun g => decide (g.Source = .rawBodySrc)) = true
      rw [List.any_eq_true]
      exact ⟨fm, hf, by simp [hsrc]⟩
    · intro hsrc
      show fms.any (fun g => decide (g.Source = .fullBodySrc)) = true
      rw [List.any_eq_true]
      exact ⟨fm, hf, by simp [hsrc]⟩

/-- Every non-JSON branch of the content-type switch leaves the body
unparsed (`isBodyParsed` stays false), so the fallback can still fire. -/
theorem dispatchPhase_not_json_state (cb : Collab) (conf : Configuration)
    (r : Request) (ty : List GoField) (sm : StructMeta) (rec0 : Record)
    (st : DState) (hmt : effectiveMIMEType r ≠ jsonContentType)
    (hd : dispatchPhase cb conf r ty sm rec0 = .ok st) :
    st.isBodyParsed = false := by
  cases hbuf : sm.HasRawBody || (sm.HasBodyForm && sm.HasFullBody) with
  | false =>
    simp only [dispatchPhase] at hd
    rw [if_neg hmt] at hd
    rw [hbuf] at hd
    simp only [Bool.false_eq_true, if_false] at hd
    split at hd
    · cases hd; rfl
    · split at hd
      · split at hd
        · exact Except.noConfusion hd
        · cases hd; rfl
      · split at hd
        · split at hd
          · exact Except.noConfusion hd
          · cases hd; rfl
        · cases hd; rfl
  | true =>
    simp only [dispatchPhase] at hd
    rw [if_neg hmt] at hd
    rw [hbuf] at hd
    simp only [eq_self_iff_true, if_true] at hd
    split at hd
    · cases hd; rfl
    · split at hd
      · split at hd
        · exact Except.noConfusion hd
        · cases hd; rfl
      · split at hd
        · split at hd
          · exact Except.noConfusion hd
          · cases hd; rfl
        · cases hd; rfl

/-- `parseJSONBody` over a malformed blob fails with the 400 "JSON input"
request error as soon as the schema has a body form field or a fullbody
field. -/
theorem parseJSONBody_malformed (cb : Collab) (conf : Configuration)
    (ty : List GoField) (sm : StructMeta) (r : Request) (bodyStr : String)
    (st : DState) (msg : String)
    (hjson : cb.jsonDec bodyStr = .error msg)
    (hbody : sm.HasBodyForm = true ∨ sm.HasFullBody = true) :
    parseJSONBody cb conf ty sm r (.buffered bodyStr) st =
      .error (.req ⟨400, "JSON input", some msg⟩) := by
  by_cases hbf : sm.HasBodyForm = true
  · simp [parseJSONBody, hbf, readSrc, hjson]
  · have hfb : sm.HasFullBody = true := hbody.resolve_left hbf
    simp [parseJSONBody, hbf, hfb, readSrc, hjson]

/-- When the body was not parsed and the fallback parameter holds a
non-empty value, the fallback phase is exactly `parseJSONBody` over that
value. -/
theorem fallbackPhase_runs (cb : Collab) (conf : Configuration)
    (ty : List GoField) (sm : StructMeta) (r : Request) (st : DState)
    (bodyStr : String)
    (hibp : st.isBodyParsed = false)
    (hfp : conf.JSONBodyFallbackParam ≠ "")
    (hbs : mmGet st.form conf.JSONBodyFallbackParam = bodyStr)
    (hbne : bodyStr ≠ "") :
    fallbackPhase cb conf ty sm r st =
      parseJSONBody cb conf ty sm r (.buffered bodyStr) st := by
  rw [fallbackPhase, hibp, hbs]
  simp [hfp, hbne]

/-- The named loop is the identity on a schema whose named fields are all
form-sourced (they were all handled by the form loop). -/
theorem namedLoop_all_form (r : Request) (pp : List (String × String)) :
    ∀ (l : List (String × FieldMeta)) (rec : Record),
      (∀ q ∈ l, q.2.Source = .formSrc) →
      l.foldlM (namedStep r pp) rec = .ok rec := by
  intro l
  induction l with
  | nil => intro rec _; rfl
  | cons q rest ih =>
    intro rec h
    rw [List.foldlM_cons]
    have hq : namedStep r pp rec q = .ok rec := by
      rw [namedStep, h q (List.mem_cons_self q rest)]
    rw [hq]
    show rest.foldlM (namedStep r pp) rec = .ok rec
    exact ih rec (fun g hg => h g (List.mem_cons_of_mem q hg))

/-- C5: when the request body was not consumed as JSON and the configured
fallback form parameter carries a non-empty value that is malformed JSON,
decoding fails with the 400 "JSON input" request error exactly when the
schema has body-bound fields (a body form field or a fullbody field);
when it has neither, the malformed value is silently ignored and decoding
succeeds with the form-loop result. -/
theorem decode_fallback_malformed (cb : Collab) (conf : Configuration)
    (r : Request) (pp : List (String × String)) (ty : List GoField)
    (sm : StructMeta) (st1 : DState) (rec1 rec0 : Record) (bodyStr msg : String)
    (hsm : examineStruct conf ty = .ok sm)
    (hnamed : ∀ q ∈ sm.NamedFields, q.2.Source = .formSrc)
    (hunn : ∀ g ∈ sm.UnnamedFields, g.Source = .fullBodySrc)
    (hmt : effectiveMIMEType r ≠ jsonContentType)
    (hd : dispatchPhase cb conf r ty sm rec0 = .ok st1)
    (hform : formPhase sm st1.form st1.dest = .ok rec1)
    (hfp : conf.JSONBodyFallbackParam ≠ "")
    (hbs : mmGet st1.form conf.JSONBodyFallbackParam = bodyStr)
    (hbne : bodyStr ≠ "")
    (hjson : cb.jsonDec bodyStr = .error msg) :
    ((sm.HasBodyForm = true ∨ sm.HasFullBody = true) →
      DecodeVal cb conf r pp ty rec0 =
        .error (.req ⟨400, "JSON input", some msg⟩)) ∧
    (sm.HasBodyForm = false → sm.HasFullBody = false →
      DecodeVal cb conf r pp ty rec0 = .ok rec1) := by
  have hibp : st1.isBodyParsed = false :=
    dispatchPhase_not_json_state cb conf r ty sm rec0 st1 hmt hd
  constructor
  · intro hbody
    have hfall : fallbackPhase cb conf ty sm r { st1 with dest := rec1 } =
        .error (.req ⟨400, "JSON input", some msg⟩) := by
      rw [fallbackPhase_runs cb conf ty sm r { st1 with dest := rec1 }
        bodyStr hibp hfp hbs hbne]
      exact parseJSONBody_malformed cb conf ty sm r bodyStr _ msg hjson hbody
    simp only [DecodeVal, hsm, hd, hform, hfall]
  · intro hbf hfb
    have hue : sm.UnnamedFields = [] := by
      cases hU : sm.UnnamedFields with
      | nil => rfl
      | cons g rest =>
        have hmem : g ∈ sm.UnnamedFields := by
          rw [hU]; exact List.mem_cons_self g rest
        have hflag :=
          (examineStruct_unnamed_mem conf ty sm g hsm hmem).2 (hunn g hmem)
        rw [hflag] at hfb
        exact Bool.noConfusion hfb
    have hnp : ∀ rec : Record, namedPhase r pp sm rec = .ok rec := by
      intro rec
      rw [namedPhase]
      exact namedLoop_all_form r pp sm.NamedFields rec hnamed
    have hup : ∀ (rb : String) (fb2 : Option JValue) (rec : Record),
        unnamedPhase r sm rb fb2 rec = .ok rec := by
      intro rb fb2 rec
      rw [unnamedPhase, hue]
      rfl
    rcases fallbackPhase_no_bodyfields cb conf ty sm r { st1 with dest := rec1 }
      hbf hfb with hfall | hfall
    · simp only [DecodeVal, hsm, hd, hform, hfall, hnp, hup]
    · simp only [DecodeVal, hsm, hd, hform, hfall, hnp, hup]

/-- C5 witness: a struct with one body form field (`foo`) decoding a request
whose `_body` query parameter holds the malformed blob "xyz" fails with the
400 "JSON input" error wrapping the JSON syntax error. -/
theorem decode_fallback_malformed_witness :
    DecodeVal cbTest defaultConf
      (requestFromValues [("_body", ["xyz"]), ("foo", ["hi"])]) [] tyFooStr
      recNil =
      .error (.req ⟨400, "JSON input",
        some "invalid character looking for beginning of value"⟩) := by
  exact (decode_fallback_malformed cbTest defaultConf
      (requestFromValues [("_body", ["xyz"]), ("foo", ["hi"])]) [] tyFooStr
      ⟨[("foo", ⟨[0], "foo", .tString, .formSrc, false, false, false⟩)],
        [], false, false, true⟩
      ⟨[("_body", ["xyz"]), ("foo", ["hi"])], recNil, none, false, "", ""⟩
      (Record.set recNil [0] (.vStr "hi")) recNil "xyz"
      "invalid character looking for beginning of value"
      rfl
      (by intro q hq; rw [List.mem_singleton] at hq; subst hq; rfl)
      (by intro g hg; exact absurd hg (List.not_mem_nil g))
      (by decide)
      rfl rfl (by decide) rfl (by decide) rfl).1 (Or.inl rfl)

/-! ### Raw-body lemmas (C7) -/

/-- `parseJSONBody` never touches the captured raw body. -/
theorem parseJSONBody_preserves_rawBody (cb : Collab) (conf : Configuration)
    (ty : List GoField) (sm : StructMeta) (r : Request) (src : BodySrc)
    (st st' : DState) (h : parseJSONBody cb conf ty sm r src st = .ok st') :
    st'.rawBody = st.rawBody := by
  simp only [parseJSONBody] at h
  split at h
  · exact Except.noConfusion h
  next st1 heq =>
    split at h
    · exact Except.noConfusion h
    next st2 heq2 =>
      cases h
      have h1 : st1.rawBody = st.rawBody := by
        split at heq
        · split at heq
          · exact Except.noConfusion heq
          · split at heq
            · exact Except.noConfusion heq
            · cases heq; rfl
        · cases heq; rfl
      have h2 : st2.rawBody = st1.rawBody := by
        split at heq2
        · split at heq2
          · exact Except.noConfusion heq2
          · cases heq2; rfl
        · cases heq2; rfl
      show st2.rawBody = st.rawBody
      rw [h2, h1]

/-- The fallback phase never touches the captured raw body. -/
theorem fallbackPhase_preserves_rawBody (cb : Collab) (conf : Configuration)
    (ty : List GoField) (sm : StructMeta) (r : Request) (st st' : DState)
    (h : fallbackPhase cb conf ty sm r st = .ok st') :
    st'.rawBody = st.rawBody := by
  rw [fallbackPhase] at h
  split at h
  · split at h
    · exact parseJSONBody_preserves_rawBody cb conf ty sm r _ st st' h
    · cases h; rfl
  · cases h; rfl

/-- When the schema has a rawbody field, the dispatch phase buffers the
request body and every successful branch records it as the raw body. -/
theorem dispatchPhase_rawBody (cb : Collab) (conf : Configuration)
    (r : Request) (ty : List GoField) (sm : StructMeta) (rec0 : Record)
    (st : DState) (hraw : sm.HasRawBody = true)
    (hd : dispatchPhase cb conf r ty sm rec0 = .ok st) :
    st.rawBody = r.body := by
  simp only [dispatchPhase, hraw, Bool.true_or, eq_self_iff_true, if_true] at hd
  split at hd
  · split at hd
    · exact Except.noConfusion hd
    · split at hd
      · exact Except.noConfusion hd
      next st2 heq =>
        cases hd
        show st2.rawBody = r.body
        rw [parseJSONBody_preserves_rawBody cb conf ty sm r _ _ st2 heq]
  · split at hd
    · cases hd; rfl
    · split at hd
      · split at hd
        · exact Except.noConfusion hd
        · cases hd; rfl
      · split at hd
        · split at hd
          · exact Except.noConfusion hd
          · cases hd; rfl
        · cases hd; rfl

/-- A successful `parseJSONBody` from a buffered source with a body form
field in the schema implies the source decoded as JSON. -/
theorem parseJSONBody_ok_jsonDec (cb : Collab) (conf : Configuration)
    (ty : List GoField) (sm : StructMeta) (r : Request) (s : String)
    (st st2 : DState) (hbf : sm.HasBodyForm = true)
    (h : parseJSONBody cb conf ty sm r (.buffered s) st = .ok st2) :
    ∃ j, cb.jsonDec s = .ok j := by
  cases hj : cb.jsonDec s with
  | ok j => exact ⟨j, rfl⟩
  | error m =>
    simp only [parseJSONBody, readSrc] at h
    rw [if_pos hbf] at h
    simp only [hj] at h
    exact Except.noConfusion h

/-- A successful dispatch of a JSON-typed request over a schema with a
rawbody field and a body form field implies the body decoded as JSON. -/
theorem dispatchPhase_json_jsonDec (cb : Collab) (conf : Configuration)
    (r : Request) (ty : List GoField) (sm : StructMeta) (rec0 : Record)
    (st : DState) (hraw : sm.HasRawBody = true)
    (hmt : effectiveMIMEType r = jsonContentType)
    (hbf : sm.HasBodyForm = true)
    (hd : dispatchPhase cb conf r ty sm rec0 = .ok st) :
    ∃ j, cb.jsonDec r.body = .ok j := by
  simp only [dispatchPhase, hraw, Bool.true_or, hmt, eq_self_iff_true,
    if_true] at hd
  split at hd
  · exact Except.noConfusion hd
  · split at hd
    · exact Except.noConfusion hd
    next st2 heq =>
      exact parseJSONBody_ok_jsonDec cb conf ty sm r r.body _ st2 hbf heq

/-- `setFieldVal` writes only its own field's index path. -/
theorem setFieldVal_other (rec : Record) (fm : FieldMeta) (v : Val)
    (rec' : Record) (h : setFieldVal rec fm v = .ok rec') :
    ∀ i, i ≠ fm.fieldIdx → rec' i = rec i := by
  intro i hi
  rw [setFieldVal] at h
  split at h
  · exact Except.noConfusion h
  next v2 heq =>
    cases h
    show (if i = fm.fieldIdx then v2 else rec i) = rec i
    exact if_neg hi

/-- One unnamed-loop step writes only its own field's index path. -/
theorem unnamedStep_other (r : Request) (rb : String) (fb : Option JValue)
    (rec : Record) (fm : FieldMeta) (rec' : Record)
    (h : unnamedStep r rb fb rec fm = .ok rec') :
    ∀ i, i ≠ fm.fieldIdx → rec' i = rec i := by
  intro i hi
  rw [unnamedStep.eq_def] at h
  split at h
  · exact setFieldVal_other rec fm _ rec' h i hi
  · exact setFieldVal_other rec fm _ rec' h i hi
  · exact setFieldVal_other rec fm _ rec' h i hi
  · exact setFieldVal_other rec fm _ rec' h i hi
  · exact setFieldVal_other rec fm _ rec' h i hi
  · exact setFieldVal_other rec fm _ rec' h i hi
  · split at h
    · cases h
      show (if i = fm.fieldIdx then Val.vBytes rb else rec i) = rec i
      exact if_neg hi
    · cases h
      show (if i = fm.fieldIdx then Val.vStr rb else rec i) = rec i
      exact if_neg hi
    · exact Except.noConfusion h
  · split at h
    · exact setFieldVal_other rec fm _ rec' h i hi
    · cases h
      show (if i = fm.fieldIdx then zeroVal fm.typ else rec i) = rec i
      exact if_neg hi
  · cases h; rfl

/-- The unnamed loop leaves an index path alone when no field in the list
owns it. -/
theorem unnamedFold_other (r : Request) (rb : String) (fb : Option JValue) :
    ∀ (l : List FieldMeta) (rec rec' : Record) (i : List Nat),
      (∀ g ∈ l, g.fieldIdx ≠ i) →
      l.foldlM (unnamedStep r rb fb) rec = .ok rec' →
      rec' i = rec i := by
  intro l
  induction l with
  | nil =>
    intro rec rec' i _ h
    have he : rec = rec' := Except.ok.inj h
    rw [he]
  | cons fm rest ih =>
    intro rec rec' i hne h
    rw [List.foldlM_cons] at h
    cases hs : unnamedStep r rb fb rec fm with
    | error e =>
      rw [hs] at h
      exact Except.noConfusion h
    | ok recm =>
      rw [hs] at h
      have hrest : rec' i = recm i := by
        apply ih recm rec' i (fun g hg => hne g (List.mem_cons_of_mem fm hg))
        exact h
      have hstep : recm i = rec i :=
        unnamedStep_other r rb fb rec fm recm hs i
          (hne fm (List.mem_cons_self fm rest)).symm
      rw [hrest, hstep]

/-- Value of a rawbody field after the unnamed loop: its own step writes the
raw body (as a string or as bytes, by type), and no later step with a
distinct index path overwrites it. -/
theorem unnamedFold_rawbody_value (r : Request) (rb : String)
    (fb : Option JValue) (pre post : List FieldMeta) (fm : FieldMeta)
    (rec rec' : Record)
    (hsrc : fm.Source = .rawBodySrc)
    (hpost : ∀ g ∈ post, g.fieldIdx ≠ fm.fieldIdx)
    (h : (pre ++ fm :: post).foldlM (unnamedStep r rb fb) rec = .ok rec') :
    (fm.typ = .tString → rec' fm.fieldIdx = .vStr rb) ∧
    (fm.typ = .tSlice .tUint8 → rec' fm.fieldIdx = .vBytes rb) := by
  rw [List.foldlM_append] at h
  cases hp : pre.foldlM (unnamedStep r rb fb) rec with
  | error e =>
    rw [hp] at h
    exact Except.noConfusion h
  | ok recA =>
    rw [hp] at h
    have h2 : (fm :: post).foldlM (unnamedStep r rb fb) recA = .ok rec' := h
    rw [List.foldlM_cons] at h2
    cases hs : unnamedStep r rb fb recA fm with
    | error e =>
      rw [hs] at h2
      exact Except.noConfusion h2
    | ok recB =>
      rw [hs] at h2
      have h3 : post.foldlM (unnamedStep r rb fb) recB = .ok rec' := h2
      have hpres : rec' fm.fieldIdx = recB fm.fieldIdx :=
        unnamedFold_other r rb fb post recB rec' fm.fieldIdx hpost h3
      constructor
      · intro hty
        simp only [unnamedStep, hsrc, hty] at hs
        have hB : recB = Record.set recA fm.fieldIdx (.vStr rb) :=
          (Except.ok.inj hs).symm
        rw [hpres, hB]
        show (if fm.fieldIdx = fm.fieldIdx then Val.vStr rb
          else recA fm.fieldIdx) = .vStr rb
        exact if_pos rfl
      · intro hty
        simp only [unnamedStep, hsrc, hty] at hs
        have hB : recB = Record.set recA fm.fieldIdx (.vBytes rb) :=
          (Except.ok.inj hs).symm
        rw [hpres, hB]
        show (if fm.fieldIdx = fm.fieldIdx then Val.vBytes rb
          else recA fm.fieldIdx) = .vBytes rb
        exact if_pos rfl

/-- C7: on a successful decode over a schema with a rawbody field, that
field receives the verbatim request body — as the string itself when the
field is a string, as the byte slice when it is a byte slice — regardless of
content type; and when the content type is JSON and the schema also has body
form fields, the same body bytes were consumed by the JSON decoder too. -/
theorem decode_rawbody_exact (cb : Collab) (conf : Configuration)
    (r : Request) (pp : List (String × String)) (ty : List GoField)
    (sm : StructMeta) (fm : FieldMeta) (pre post : List FieldMeta)
    (rec0 rec1 : Record)
    (hsm : examineStruct conf ty = .ok sm)
    (hsplit : sm.UnnamedFields = pre ++ fm :: post)
    (hsrc : fm.Source = .rawBodySrc)
    (hpost : ∀ g ∈ post, g.fieldIdx ≠ fm.fieldIdx)
    (hdec : DecodeVal cb conf r pp ty rec0 = .ok rec1) :
    (fm.typ = .tString → rec1 fm.fieldIdx = .vStr r.body) ∧
    (fm.typ = .tSlice .tUint8 → rec1 fm.fieldIdx = .vBytes r.body) ∧
    (effectiveMIMEType r = jsonContentType → sm.HasBodyForm = true →
      ∃ j, cb.jsonDec r.body = .ok j) := by
  have hmem : fm ∈ sm.UnnamedFields := by
    rw [hsplit]
    exact List.mem_append_right pre (List.mem_cons_self fm post)
  have hraw : sm.HasRawBody = true :=
    (examineStruct_unnamed_mem conf ty sm fm hsm hmem).1 hsrc
  rw [DecodeVal] at hdec
  simp only [hsm] at hdec
  cases hd : dispatchPhase cb conf r ty sm rec0 with
  | error e =>
    rw [hd] at hdec
    exact Except.noConfusion hdec
  | ok st1 =>
    rw [hd] at hdec
    cases hf : formPhase sm st1.form st1.dest with
    | error e =>
      simp only [hf] at hdec
      exact Except.noConfusion hdec
    | ok rec2 =>
      simp only [hf] at hdec
      cases hfb : fallbackPhase cb conf ty sm r { st1 with dest := rec2 } with
      | error e =>
        simp only [hfb] at hdec
        exact Except.noConfusion hdec
      | ok st3 =>
        simp only [hfb] at hdec
        cases hnp : namedPhase r pp sm st3.dest with
        | error e =>
          simp only [hnp] at hdec
          exact Except.noConfusion hdec
        | ok rec4 =>
          simp only [hnp] at hdec
          have hrb1 : st1.rawBody = r.body :=
            dispatchPhase_rawBody cb conf r ty sm rec0 st1 hraw hd
          have hrb3 : st3.rawBody = r.body := by
            rw [fallbackPhase_preserves_rawBody cb conf ty sm r _ st3 hfb]
            exact hrb1
          rw [unnamedPhase, hsplit, hrb3] at hdec
          have hv := unnamedFold_rawbody_value r r.body st3.fullBody pre post
            fm rec4 rec1 hsrc hpost hdec
          refine ⟨hv.1, hv.2, ?_⟩
          intro hmt hbf
          exact dispatchPhase_json_jsonDec cb conf r ty sm rec0 st1
            hraw hmt hbf hd

/-- C7 witness: the rawbody-string struct decoding an empty-bodied GET
request stores the verbatim (empty) body in the rawbody field. -/
theorem decode_rawbody_exact_witness :
    DecodeVal cbTest defaultConf (requestFromValues []) [] tyRawMixed recNil =
      .ok (Record.set recNil [0] (.vStr "")) ∧
    Record.set recNil [0] (.vStr "") [0] =
      .vStr (requestFromValues []).body := by
  refine ⟨rfl, ?_⟩
  exact (decode_rawbody_exact cbTest defaultConf (requestFromValues []) []
      tyRawMixed
      ⟨[("foo", ⟨[1], "foo", .tString, .formSrc, false, false, false⟩)],
        [⟨[0], "", .tString, .rawBodySrc, false, false, false⟩],
        true, false, true⟩
      ⟨[0], "", .tString, .rawBodySrc, false, false, false⟩ [] []
      recNil (Record.set recNil [0] (.vStr ""))
      rfl rfl rfl
      (by intro g hg; exact absurd hg (List.not_mem_nil g))
      rfl).1 rfl

/-! ### Encode/decode round-trip lemmas (C1) -/

/-- `url.Values.Set` on a fresh key appends the singleton entry. -/
theorem mmSet_fresh (A : List (String × List String)) (k v : String)
    (h : ∀ p ∈ A, p.1 ≠ k) : mmSet A k v = A ++ [(k, [v])] := by
  have hf : A.find? (fun p => decide (p.1 = k)) = none := by
    rw [List.find?_eq_none]
    intro p hp
    simp [h p hp]
  rw [mmSet, hf]
  rfl

/-- In a multimap with distinct keys, lookup of a member entry's key returns
that entry's value. -/
theorem mmLookup_of_mem_nodup {α : Type} (m : List (String × α))
    (q : String × α) (hmem : q ∈ m) (hnd : (m.map Prod.fst).Nodup) :
    mmLookup m q.1 = some q.2 := by
  revert hmem hnd
  induction m with
  | nil => intro hmem _; exact absurd hmem (List.not_mem_nil q)
  | cons p rest ih =>
    intro hmem hnd
    have hmap : (p.1 :: rest.map Prod.fst).Nodup := by simpa using hnd
    rcases List.mem_cons.1 hmem with hqp | hq
    · rw [hqp, mmLookup, List.find?_cons_of_pos rest (by simp)]
    · have hni := (List.nodup_cons.1 hmap).1
      have hne : ¬ ((fun x : String × α => decide (x.1 = q.1)) p = true) := by
        simp only [decide_eq_true_eq]
        intro he
        apply hni
        rw [he]
        exact List.mem_map_of_mem Prod.fst hq
      rw [mmLookup, List.find?_cons_of_neg rest hne]
      exact ih hq (List.nodup_cons.1 hmap).2

/-- The keys of a compiled schema's name map are distinct. -/
theorem namedFields_keys_nodup (conf : Configuration) (ty : List GoField)
    (sm : StructMeta) (hsm : examineStruct conf ty = .ok sm) :
    (sm.NamedFields.map Prod.fst).Nodup := by
  rw [examineStruct] at hsm
  cases hfms : examineFieldsAux conf ty [] 0 with
  | error e => rw [hfms] at hsm; exact absurd hsm (by simp)
  | ok fms =>
    rw [hfms] at hsm
    have heq : sm = mkStructMeta fms := (Except.ok.inj hsm).symm
    subst heq
    exact namedFold_keys_nodup fms [] (by simp)

/-- `EncodeToValues`'s loop over fields with distinct names, all of whose
values stringify, appends one singleton entry per field. -/
theorem encodeFold_append (rec : Record) :
    ∀ (l : List (String × FieldMeta)) (A : List (String × List String)),
      (∀ q ∈ l, q.2.Source = .formSrc) →
      (∀ q ∈ l, ∀ p ∈ A, p.1 ≠ q.2.name) →
      List.Pairwise (fun a b => a.2.name ≠ b.2.name) l →
      (∀ q ∈ l, (getString rec q.2).isOk = true) →
      l.foldlM (encStep rec) A = .ok (A ++ l.map (encEntry rec)) := by
  intro l
  induction l with
  | nil =>
    intro A _ _ _ _
    rw [List.foldlM_nil, List.map_nil, List.append_nil]
    rfl
  | cons q rest ih =>
    intro A hsrc hfresh hpw hok
    have hq : q.2.Source = .formSrc := hsrc q (List.mem_cons_self q rest)
    cases hg : getString rec q.2 with
    | error e =>
      have hko := hok q (List.mem_cons_self q rest)
      rw [hg] at hko
      exact absurd hko (by simp [Except.isOk, Except.toBool])
    | ok s =>
      have hms : mmSet A q.2.name s = A ++ [(q.2.name, [s])] :=
        mmSet_fresh A q.2.name s
          (fun p hp => hfresh q (List.mem_cons_self q rest) p hp)
      have hstep : encStep rec A q = .ok (A ++ [(q.2.name, [s])]) := by
        rw [encStep, if_pos hq]
        simp only [hg]
        rw [hms]
      have hrest := ih (A ++ [(q.2.name, [s])])
        (fun g hg2 => hsrc g (List.mem_cons_of_mem q hg2))
        (fun g hg2 p hp => by
          rcases List.mem_append.1 hp with hpA | hpq
          · exact hfresh g (List.mem_cons_of_mem q hg2) p hpA
          · have hpe : p = (q.2.name, [s]) := by simpa using hpq
            rw [hpe]
            exact (List.pairwise_cons.1 hpw).1 g hg2)
        (List.pairwise_cons.1 hpw).2
        (fun g hg2 => hok g (List.mem_cons_of_mem q hg2))
      rw [List.foldlM_cons, hstep]
      show rest.foldlM (encStep rec) (A ++ [(q.2.name, [s])]) =
        Except.ok (A ++ (q :: rest).map (encEntry rec))
      rw [hrest]
      have h2 : (A ++ [(q.2.name, [s])]) ++ rest.map (encEntry rec) =
          A ++ (q :: rest).map (encEntry rec) := by
        simp [encEntry, hg, List.append_assoc]
      rw [h2]

/-- The fallback phase is the identity when the fallback parameter has no
value in the form. -/
theorem fallbackPhase_value_empty (cb : Collab) (conf : Configuration)
    (ty : List GoField) (sm : StructMeta) (r : Request) (st : DState)
    (h : mmGet st.form conf.JSONBodyFallbackParam = "") :
    fallbackPhase cb conf ty sm r st = .ok st := by
  rw [fallbackPhase]
  split
  · have hne : ¬ mmGet st.form conf.JSONBodyFallbackParam ≠ "" := by simp [h]
    rw [if_neg hne]
  · rfl

/-- Decoding the encoded query: the form loop parses every emitted singleton
entry back to the original field value (stringify-then-parse identity), each
field landing at its own index path. -/
theorem formFold_roundtrip (sm : StructMeta) (rec : Record) :
    ∀ (l : List (String × FieldMeta)) (rec0 : Record),
      (∀ q ∈ l, mmLookup sm.NamedFields q.2.name = some q.2) →
      (∀ q ∈ l, q.2.Source = .formSrc) →
      (∀ q ∈ l, isScalarT q.2.typ = true) →
      (∀ q ∈ l, kindOk q.2.typ (rec q.2.fieldIdx) = true) →
      List.Pairwise (fun a b => a.2.fieldIdx ≠ b.2.fieldIdx) l →
      ∃ rec1, formPhase sm (l.map (encEntry rec)) rec0 = .ok rec1 ∧
        (∀ q ∈ l, rec1 q.2.fieldIdx = rec q.2.fieldIdx) ∧
        (∀ i, (∀ q ∈ l, q.2.fieldIdx ≠ i) → rec1 i = rec0 i) := by
  intro l
  induction l with
  | nil =>
    intro rec0 _ _ _ _ _
    exact ⟨rec0, rfl, fun q hq => absurd hq (List.not_mem_nil q),
      fun i _ => rfl⟩
  | cons q rest ih =>
    intro rec0 hlk hsrc hsc hkd hpw
    obtain ⟨strf, p, s, hstrf, hp, hs, hps⟩ :=
      roundTripScalar q.2.typ (rec q.2.fieldIdx)
        (hsc q (List.mem_cons_self q rest)) (hkd q (List.mem_cons_self q rest))
    have hgs : getString rec q.2 = .ok s := by
      simp only [getString, hstrf, hs]
    obtain ⟨recA, hfoldA, hotherA, hlastA, -⟩ :=
      formKeyStep_all_ok sm q.2.name q.2 p (hlk q (List.mem_cons_self q rest))
        (hsrc q (List.mem_cons_self q rest)) hp [s] rec0
        (fun v2 hv2 => by
          have hv2e : v2 = s := by simpa using hv2
          rw [hv2e, hps]
          rfl)
    have hvA : recA q.2.fieldIdx = rec q.2.fieldIdx :=
      hlastA s (rec q.2.fieldIdx) rfl hps
    obtain ⟨rec1, hform1, hvals1, hpres1⟩ :=
      ih recA (fun g hg => hlk g (List.mem_cons_of_mem q hg))
        (fun g hg => hsrc g (List.mem_cons_of_mem q hg))
        (fun g hg => hsc g (List.mem_cons_of_mem q hg))
        (fun g hg => hkd g (List.mem_cons_of_mem q hg))
        (List.pairwise_cons.1 hpw).2
    have hentry : formEntryStep sm rec0 (encEntry rec q) = .ok recA := by
      have he : encEntry rec q = (q.2.name, [s]) := by
        simp only [encEntry, hgs]
      rw [formEntryStep, he]
      exact hfoldA
    refine ⟨rec1, ?_, ?_, ?_⟩
    · rw [List.map_cons, formPhase, List.foldlM_cons, hentry]
      exact hform1
    · intro g hg
      rcases List.mem_cons.1 hg with hgq | hg2
      · rw [hgq]
        rw [hpres1 q.2.fieldIdx
          (fun g2 hg2b => Ne.symm ((List.pairwise_cons.1 hpw).1 g2 hg2b))]
        exact hvA
      · exact hvals1 g hg2
    · intro i hni
      rw [hpres1 i (fun g hg => hni g (List.mem_cons_of_mem q hg))]
      exact hotherA i (Ne.symm (hni q (List.mem_cons_self q rest)))

/-- C1 counterexample: a form field legitimately named `_body` collides with
the default JSON body fallback parameter.  Encoding the record produces the
query `_body=42`, but decoding that query feeds the encoded scalar to the
JSON decoder as a fallback body and fails with the 400 "JSON input" error,
so encode-then-decode does not reproduce the record for every all-scalar
form schema. -/
theorem encode_decode_fallback_collision :
    EncodeToValues defaultConf tyBodyParam (fun _ => .vInt 42) [] =
      .ok [("_body", ["42"])] ∧
    DecodeVal cbTest defaultConf (requestFromValues [("_body", ["42"])]) []
      tyBodyParam recNil =
      .error (.req ⟨400, "JSON input",
        some "json: cannot unmarshal value into struct"⟩) :=
  ⟨rfl, rfl⟩

/-- C1 (amended): for a schema whose named fields are all form-sourced
supported scalars with pairwise-distinct index paths and none named like the
configured JSON body fallback parameter, and with no unnamed fields, if the
record holds well-kinded values then `EncodeToValues` succeeds and decoding
a fresh GET request over the resulting query reproduces every named field's
original value (stringify-then-parse is the identity on each field). -/
theorem encode_decode_roundtrip (cb : Collab) (conf : Configuration)
    (ty : List GoField) (sm : StructMeta) (rec rec0 : Record)
    (hsm : examineStruct conf ty = .ok sm)
    (hsrc : ∀ q ∈ sm.NamedFields, q.2.Source = .formSrc)
    (hsc : ∀ q ∈ sm.NamedFields, isScalarT q.2.typ = true)
    (hkd : ∀ q ∈ sm.NamedFields, kindOk q.2.typ (rec q.2.fieldIdx) = true)
    (hnfb : ∀ q ∈ sm.NamedFields, q.2.name ≠ conf.JSONBodyFallbackParam)
    (hu : sm.UnnamedFields = [])
    (hpw : List.Pairwise (fun a b => a.2.fieldIdx ≠ b.2.fieldIdx)
      sm.NamedFields) :
    ∃ vals rec1,
      EncodeToValues conf ty rec [] = .ok vals ∧
      DecodeVal cb conf (requestFromValues vals) [] ty rec0 = .ok rec1 ∧
      ∀ q ∈ sm.NamedFields, rec1 q.2.fieldIdx = rec q.2.fieldIdx := by
  have hkeys : (sm.NamedFields.map Prod.fst).Nodup :=
    namedFields_keys_nodup conf ty sm hsm
  have hnek := namedFields_name_eq_key conf ty sm hsm
  have hnames : List.Pairwise (fun a b => a.2.name ≠ b.2.name)
      sm.NamedFields := by
    have hkp : List.Pairwise (fun a b => a.1 ≠ b.1) sm.NamedFields :=
      List.pairwise_map.1 hkeys
    refine hkp.imp_of_mem ?_
    intro a b ha hb hne
    rw [hnek a ha, hnek b hb]
    exact hne
  have hgok : ∀ q ∈ sm.NamedFields, (getString rec q.2).isOk = true := by
    intro q hq
    obtain ⟨strf, p, s, hstrf, hp, hs, hps⟩ :=
      roundTripScalar q.2.typ (rec q.2.fieldIdx) (hsc q hq) (hkd q hq)
    simp only [getString, hstrf, hs]
    rfl
  have henc : EncodeToValues conf ty rec [] =
      .ok (sm.NamedFields.map (encEntry rec)) := by
    rw [EncodeToValues]
    simp only [hsm]
    have hef := encodeFold_append rec sm.NamedFields [] hsrc
      (fun q hq p hp => absurd hp (List.not_mem_nil p)) hnames hgok
    rw [List.nil_append] at hef
    exact hef
  have hlk : ∀ q ∈ sm.NamedFields,
      mmLookup sm.NamedFields q.2.name = some q.2 := by
    intro q hq
    rw [hnek q hq]
    exact mmLookup_of_mem_nodup sm.NamedFields q hq hkeys
  obtain ⟨rec1, hform, hvals, hpres⟩ :=
    formFold_roundtrip sm rec sm.NamedFields rec0 hlk hsrc hsc hkd hpw
  obtain ⟨hrb, hfb⟩ := examineStruct_unnamed_empty_flags conf ty sm hsm hu
  have hbuf : (sm.HasRawBody || (sm.HasBodyForm && sm.HasFullBody)) = false := by
    rw [hrb, hfb]
    simp
  have hmt : effectiveMIMEType
      (requestFromValues (sm.NamedFields.map (encEntry rec))) = "" := rfl
  have hd := dispatchPhase_no_ct cb conf
    (requestFromValues (sm.NamedFields.map (encEntry rec))) ty sm rec0 hmt hbuf
  have hq2 : (requestFromValues (sm.NamedFields.map (encEntry rec))).query =
      sm.NamedFields.map (encEntry rec) := rfl
  have hb2 : (requestFromValues (sm.NamedFields.map (encEntry rec))).body =
      "" := rfl
  rw [hq2, hb2] at hd
  have hget : mmGet (sm.NamedFields.map (encEntry rec))
      conf.JSONBodyFallbackParam = "" := by
    rw [mmGet, mmLookup]
    have hf : (sm.NamedFields.map (encEntry rec)).find?
        (fun p => decide (p.1 = conf.JSONBodyFallbackParam)) = none := by
      rw [List.find?_eq_none]
      intro p hp
      obtain ⟨q, hq, hpq⟩ := List.mem_map.1 hp
      simp [← hpq, encEntry, hnfb q hq]
    rw [hf]
  have hfall := fallbackPhase_value_empty cb conf ty sm
    (requestFromValues (sm.NamedFields.map (encEntry rec)))
    ⟨sm.NamedFields.map (encEntry rec), rec1, none, false, "", ""⟩ hget
  have hnp : ∀ recx : Record, namedPhase
      (requestFromValues (sm.NamedFields.map (encEntry rec))) [] sm recx =
      .ok recx := by
    intro recx
    rw [namedPhase]
    exact namedLoop_all_form _ [] sm.NamedFields recx hsrc
  have hup : ∀ recx : Record, unnamedPhase
      (requestFromValues (sm.NamedFields.map (encEntry rec))) sm "" none recx =
      .ok recx := by
    intro recx
    rw [unnamedPhase, hu]
    rfl
  refine ⟨sm.NamedFields.map (encEntry rec), rec1, henc, ?_, hvals⟩
  simp only [DecodeVal, hsm, hd, hform, hfall, hnp, hup]

/-- C1 witness: the amended round trip applied to the one-int-field schema
at value 7. -/
theorem encode_decode_roundtrip_witness :
    ∃ vals rec1,
      EncodeToValues defaultConf tyFooInt (fun _ => .vInt 7) [] = .ok vals ∧
      DecodeVal cbTest defaultConf (requestFromValues vals) [] tyFooInt
        recNil = .ok rec1 ∧
      ∀ q ∈ [(("foo" : String),
          (⟨[0], "foo", .tInt, .formSrc, false, false, false⟩ : FieldMeta))],
        rec1 q.2.fieldIdx = Val.vInt 7 :=
  encode_decode_roundtrip cbTest defaultConf tyFooInt
    ⟨[("foo", ⟨[0], "foo", .tInt, .formSrc, false, false, false⟩)], [],
      false, false, true⟩
    (fun _ => .vInt 7) recNil rfl
    (by intro q hq; rw [List.mem_singleton] at hq; subst hq; rfl)
    (by intro q hq; rw [List.mem_singleton] at hq; subst hq; rfl)
    (by intro q hq; rw [List.mem_singleton] at hq; subst hq; rfl)
    (by intro q hq; rw [List.mem_singleton] at hq; subst hq; decide)
    rfl
    (by simp)

end Httpform
